import Mathlib

/-!
Verification model of the ne-aqua-components Component Base and
Style-Variable Management subsystem.

The definitions below are a shallow embedding of the JavaScript sources
src/stylemanager.js, src/webcomponentbase.js and src/toolbelt.js.
JavaScript strings are modelled as Lean String / List Char, Map objects as
association lists, CSSOM style sheets as lists of rules, and functions that
may throw as functions returning a pair of the resulting state and an
optional thrown message.  DOM behaviour consumed by the code (custom-element
attribute reactions, EventTarget listener de-duplication, style sheets) is
modelled to the W3C semantics the code relies on.
-/

namespace Aqua

/-! ## Character model of the JS regex classes and ASCII case maps -/

/-- Does the character match the regex class [A-Z] used in normalizeProp. -/
def jsIsUpper (c : Char) : Bool := 65 ≤ c.toNat && c.toNat ≤ 90

/-- Does the character match the regex class [a-z] used in denormalizeProp
and in the kebab-case regex of toolbelt.js. -/
def jsIsLower (c : Char) : Bool := 97 ≤ c.toNat && c.toNat ≤ 122

/-- ASCII fragment of the JS toLowerCase applied to a single character. -/
def jsToLowerChar (c : Char) : Char :=
  if jsIsUpper c then Char.ofNat (c.toNat + 32) else c

/-- ASCII fragment of the JS toUpperCase applied to a single character. -/
def jsToUpperChar (c : Char) : Char :=
  if jsIsLower c then Char.ofNat (c.toNat - 32) else c

/-- JS String.prototype.toLowerCase restricted to the ASCII range used by
attribute and property names. -/
def jsStrToLower (s : String) : String := String.mk (s.data.map jsToLowerChar)

/-! ## stylemanager.js : name normalization -/

/-- Character-level model of the global regex replace
replace(/[A-Z]/g, letter => "-" + letter.toLowerCase()) in normalizeProp. -/
def camelToKebabChars : List Char → List Char
  | [] => []
  | c :: rest =>
    if jsIsUpper c then '-' :: jsToLowerChar c :: camelToKebabChars rest
    else c :: camelToKebabChars rest

/-- Model of prop.startsWith("--") ? prop.slice(2) : prop in normalizeProp. -/
def stripMarker (l : List Char) : List Char :=
  if l.take 2 = ['-', '-'] then l.drop 2 else l

/-- StyleManager.normalizeProp: strips a leading "--" marker, then converts
camelCase to kebab-case via the [A-Z] global replace. -/
def normalizeProp (s : String) : String :=
  String.mk (camelToKebabChars (stripMarker s.data))

/-- Character-level model of the left-to-right global regex replace
replace of the pattern -([a-z]) (global, left to right) used by denormalizeProp and
by Toolbelt.kebabToCamelCase. -/
def kebabToCamelChars : List Char → List Char
  | [] => []
  | c :: rest =>
    if c = '-' then
      match rest with
      | [] => ['-']
      | d :: rest2 =>
        if jsIsLower d then jsToUpperChar d :: kebabToCamelChars rest2
        else '-' :: kebabToCamelChars (d :: rest2)
    else c :: kebabToCamelChars rest

/-- StyleManager.denormalizeProp: kebab-case to camelCase. -/
def denormalizeProp (s : String) : String :=
  String.mk (kebabToCamelChars s.data)

/-! ## toolbelt.js : case conversion used by attributeChangedCallback -/

/-- Tail of the kebab-case regex ^[a-z]+(-[a-z]+)*$ after the first
character group has started. -/
def isKebabTail : List Char → Bool
  | [] => true
  | c :: rest =>
    if c = '-' then
      match rest with
      | [] => false
      | d :: rest2 => jsIsLower d && isKebabTail rest2
    else jsIsLower c && isKebabTail rest

/-- Toolbelt.isKebabCase: test of the regex ^[a-z]+(-[a-z]+)*$. -/
def isKebabCase (s : String) : Bool :=
  match s.data with
  | [] => false
  | c :: rest => jsIsLower c && isKebabTail rest

/-- Toolbelt.kebabToCamelCase: lowercases, trims leading and trailing
hyphen runs, then applies the -([a-z]) global replace. -/
def kebabToCamelCase (s : String) : String :=
  String.mk (kebabToCamelChars
    (((s.data.map jsToLowerChar).dropWhile (fun c => c = '-')).reverse.dropWhile
      (fun c => c = '-')).reverse)

/-- Model of the template piece that uppercases the first character of a
string, charAt(0).toUpperCase() + slice(1). -/
def upperFirst : List Char → List Char
  | [] => []
  | c :: rest => jsToUpperChar c :: rest

/-- Toolbelt.camelIfKebab: converts to camelCase when the input is
kebab-case, optionally uppercasing the first character. -/
def camelIfKebab (s : String) (upperCaseFirst : Bool) : String :=
  let string := if isKebabCase s then kebabToCamelCase s else s
  if upperCaseFirst then String.mk (upperFirst string.data) else string

/-! ## stylemanager.js : CSSOM-backed variable store

A CSSStyleRule is a selector plus an ordered declaration list; the sheet of
the managed style element is its rule list.  CSSStyleDeclaration.setProperty
with a non-empty value updates an existing declaration in place or appends,
and with an empty value removes the declaration; removeProperty removes it;
getPropertyValue returns the stored value or the empty string. -/

structure CSSRule where
  selectorText : String
  decls : List (String × String)
deriving DecidableEq, Repr

structure StyleElement where
  isConnected : Bool
  cssRules : List CSSRule
  textContent : String
deriving DecidableEq, Repr

structure StyleManager where
  styleElement : StyleElement
  selector : String
deriving DecidableEq, Repr

/-- CSSStyleDeclaration.setProperty on a declaration list. -/
def setPropertyDecls (name value : String) (decls : List (String × String)) :
    List (String × String) :=
  if value = "" then decls.filter (fun d => ¬ d.1 = name)
  else if decls.any (fun d => d.1 = name) then
    decls.map (fun d => if d.1 = name then (name, value) else d)
  else decls ++ [(name, value)]

/-- CSSStyleDeclaration.removeProperty on a declaration list. -/
def removePropertyDecls (name : String) (decls : List (String × String)) :
    List (String × String) :=
  decls.filter (fun d => ¬ d.1 = name)

/-- CSSStyleDeclaration.getPropertyValue on a declaration list. -/
def getPropertyValueDecls (name : String) (decls : List (String × String)) :
    String :=
  match decls.find? (fun d => d.1 = name) with
  | some d => d.2
  | none => ""

/-- StyleManager.getRuleSet: null when the style element is not connected,
otherwise the first rule whose selectorText matches. -/
def getRuleSet (sm : StyleManager) (selector : String) : Option CSSRule :=
  if sm.styleElement.isConnected = false then none
  else sm.styleElement.cssRules.find? (fun r => r.selectorText = selector)

/-- Serialization of one rule, as cssText. -/
def ruleCssText (r : CSSRule) : String :=
  r.selectorText ++ " \x7b " ++
    String.join (r.decls.map (fun d => d.1 ++ ": " ++ d.2 ++ "; ")) ++ "\x7d"

/-- StyleManager.toString: concatenation of the cssText of every rule. -/
def smToString (sm : StyleManager) : String :=
  String.join (sm.styleElement.cssRules.map (fun r => ruleCssText r ++ "\n"))

/-- StyleManager.updateStyleElement: rewrites textContent wholesale from the
in-memory rule list. -/
def updateStyleElement (sm : StyleManager) : StyleManager :=
  { sm with styleElement := { sm.styleElement with textContent := smToString sm } }

/-- In-place setProperty on the first rule matching the selector, appending
a fresh rule when none matches; realizes the mutation performed through the
reference returned by getRuleSet(selector) || createRuleSet(selector). -/
def setPropFirstMatch (selector name value : String) :
    List CSSRule → List CSSRule
  | [] => [⟨selector, setPropertyDecls name value []⟩]
  | r :: rs =>
    if r.selectorText = selector then
      ⟨r.selectorText, setPropertyDecls name value r.decls⟩ :: rs
    else r :: setPropFirstMatch selector name value rs

/-- In-place removeProperty on the first rule matching the selector. -/
def removePropFirstMatch (selector name : String) :
    List CSSRule → List CSSRule
  | [] => []
  | r :: rs =>
    if r.selectorText = selector then
      ⟨r.selectorText, removePropertyDecls name r.decls⟩ :: rs
    else r :: removePropFirstMatch selector name rs

/-- StyleManager.setVariable: when the element is connected, the property
is set in place on the first rule matching the scope selector, with
createRuleSet appending a fresh rule when none matches, and finally
updateStyleElement re-serializes; when the element is not connected,
getRuleSet returns null and createRuleSet dereferences styleElement.sheet,
which is null for an unconnected style element, so the call throws a
TypeError before mutating anything.  The optional second component of the
result is the thrown error. -/
def setVariable (sm : StyleManager) (name value : String) :
    StyleManager × Option String :=
  let el := sm.styleElement
  if el.isConnected then
    let rules := setPropFirstMatch sm.selector ("--" ++ name) value el.cssRules
    (updateStyleElement { sm with styleElement := { el with cssRules := rules } },
      none)
  else
    (sm, some "TypeError")

/-- StyleManager.getVariable: trimmed property value from the scope rule, or
null when getRuleSet finds none. -/
def getVariable (sm : StyleManager) (name : String) : Option String :=
  (getRuleSet sm sm.selector).map
    (fun r => (getPropertyValueDecls ("--" ++ name) r.decls).trim)

/-- StyleManager.hasVariable: true iff the scope rule exists and the
property value there is non-empty. -/
def hasVariable (sm : StyleManager) (name : String) : Bool :=
  (getRuleSet sm sm.selector).elim false
    (fun r => ¬ getPropertyValueDecls ("--" ++ name) r.decls = "")

/-- StyleManager.removeVariable: when getRuleSet finds the scope rule, the
property is removed from it, the element re-serialized, and true returned;
otherwise false. -/
def removeVariable (sm : StyleManager) (name : String) : Bool × StyleManager :=
  if (getRuleSet sm sm.selector).isSome then
    let rules := removePropFirstMatch sm.selector ("--" ++ name)
      sm.styleElement.cssRules
    (true, updateStyleElement
      { sm with styleElement := { sm.styleElement with cssRules := rules } })
  else (false, sm)

/-- StyleManager.getVariableNames: custom property names on the scope rule,
denormalized with the leading "--" removed. -/
def getVariableNames (sm : StyleManager) : List String :=
  (getRuleSet sm sm.selector).elim []
    (fun r =>
      ((r.decls.map (fun d => d.1)).filter (fun p => p.startsWith "--")).map
        (fun p => denormalizeProp (p.drop 2)))

/-- The set trap of the variables proxy: setVariable(normalizeProp(prop), v);
an exception thrown by setVariable propagates out of the assignment. -/
def varSet (sm : StyleManager) (prop value : String) :
    StyleManager × Option String :=
  setVariable sm (normalizeProp prop) value

/-- The get trap of the variables proxy: getVariable(normalizeProp(prop)). -/
def varGet (sm : StyleManager) (prop : String) : Option String :=
  getVariable sm (normalizeProp prop)

/-- The has trap of the variables proxy: hasVariable(normalizeProp(prop)). -/
def varHas (sm : StyleManager) (prop : String) : Bool :=
  hasVariable sm (normalizeProp prop)

/-- The deleteProperty trap of the variables proxy:
removeVariable(normalizeProp(prop)). -/
def varRemove (sm : StyleManager) (prop : String) : Bool × StyleManager :=
  removeVariable sm (normalizeProp prop)


/-! ## webcomponentbase.js : component model

The component owns a state Map, its DOM attributes, a mounted flag
(isConnected), the listener registry Map, the attachments the registry has
produced on the component root and on shadow descendants, the pre-mount
command queue and an execution log for drained commands, plus counters for
render() invocations and the console.error log.  Commands are opaque
identifiers (the typeof guard in queueCommand admits exactly the callable
values, so every queued entry is executable); executing a command appends
its identifier to execLog, and a failure inside a command or handler is
modelled by the optional thrown-message component of a result pair.
Listener options are not modelled: no claim varies them and EventTarget
de-duplication is keyed on (event, callback, capture) with capture fixed. -/

/-- Map.prototype.get on an association list. -/
def assocGet {κ α : Type} [DecidableEq κ] (k : κ) : List (κ × α) → Option α
  | [] => none
  | (k2, v) :: rest => if k2 = k then some v else assocGet k rest

/-- Map.prototype.set on an association list: updates an existing entry in
place, appends a new key at the end, mirroring JS Map insertion order. -/
def assocSet {κ α : Type} [DecidableEq κ] (k : κ) (v : α) :
    List (κ × α) → List (κ × α)
  | [] => [(k, v)]
  | (k2, v2) :: rest =>
    if k2 = k then (k, v) :: rest else (k2, v2) :: assocSet k v rest

structure Comp where
  observed : List String
  stateMap : List (String × Option String)
  attrs : List (String × String)
  mounted : Bool
  listeners : List (String × List (Option String × Nat))
  rootAttached : List (String × Nat)
  nodeAttached : List (Nat × List (String × Nat))
  queued : List Nat
  execLog : List Nat
  renders : Nat
  errlog : List String
deriving DecidableEq, Repr

/-- The base render() is a no-op on the DOM; the model counts invocations. -/
def render (c : Comp) : Comp := { c with renders := c.renders + 1 }

/-- A change handler receives (oldValue, newValue), may mutate the component
and may throw; the optional second component is the thrown message. -/
def HandlerFn : Type :=
  Option String → Option String → Comp → Comp × Option String

/-- Handler environment: the on-PascalCase-Changed methods the instance
exposes (Reflect.has lookup) and the auxiliary attributeHandlers Map. -/
structure HandlerEnv where
  methods : List (String × HandlerFn)
  attributeHandlers : List (String × HandlerFn)

/-- The base component: no change-handler methods, empty attributeHandlers. -/
def emptyEnv : HandlerEnv := ⟨[], []⟩

/-- Handler resolution in attributeChangedCallback: the method named
on + camelIfKebab(property, true) + Changed when the instance has one,
otherwise the attributeHandlers entry for the lowercased attribute name. -/
def resolveHandler (env : HandlerEnv) (property : String) : Option HandlerFn :=
  let localName := "on" ++ camelIfKebab property true ++ "Changed"
  match assocGet localName env.methods with
  | some h => some h
  | none => assocGet property env.attributeHandlers

/-- WebComponentBase.attributeChangedCallback: stores the new value in
state, resolves the change handler, invokes it inside try/catch logging any
thrown error via console.error, then invokes render(); the reaction itself
returns normally (second component none). -/
def attributeChangedCallback (env : HandlerEnv) (c : Comp) (name : String)
    (oldValue newValue : Option String) : Comp × Option String :=
  let c1 := { c with stateMap := assocSet name newValue c.stateMap }
  let property := jsStrToLower name
  let c2 :=
    match resolveHandler env property with
    | some h =>
      match h oldValue newValue c1 with
      | (c3, some e) => { c3 with errlog := c3.errlog ++ [e] }
      | (c3, none) => c3
    | none => c1
  (render c2, none)

/-- Element.setAttribute on a custom element: writes the attribute and,
when the name is an observed attribute, synchronously fires
attributeChangedCallback with the previous value as oldValue. -/
def setAttribute (env : HandlerEnv) (c : Comp) (k v : String) :
    Comp × Option String :=
  let oldValue := assocGet k c.attrs
  let c1 := { c with attrs := assocSet k v c.attrs }
  if k ∈ c.observed then attributeChangedCallback env c1 k oldValue (some v)
  else (c1, none)

/-- WebComponentBase.setState: stores the value in state, propagates to the
DOM attribute when the key is observed and skipAttrSet is false (re-entering
the attribute reaction), then invokes render(). -/
def setState (env : HandlerEnv) (c : Comp) (key value : String)
    (skipAttrSet : Bool) : Comp × Option String :=
  let c1 := { c with stateMap := assocSet key (some value) c.stateMap }
  match (if key ∈ c1.observed ∧ skipAttrSet = false then
      setAttribute env c1 key value else (c1, none)) with
  | (c2, some e) => (c2, some e)
  | (c2, none) => (render c2, none)

/-- The set trap of the state proxy built by buildProxies:
self.setState(property, value, true). -/
def stateProxySet (env : HandlerEnv) (c : Comp) (k v : String) :
    Comp × Option String :=
  setState env c k v true

/-- The entry loop of setMultipleState: for each (key, value) store into
state and propagate observed attributes unless skipped. -/
def applyUpdates (env : HandlerEnv) (skipAttrSet : Bool) :
    Comp → List (String × String) → Comp × Option String
  | c, [] => (c, none)
  | c, (key, value) :: rest =>
    let c1 := { c with stateMap := assocSet key (some value) c.stateMap }
    match (if key ∈ c1.observed ∧ skipAttrSet = false then
        setAttribute env c1 key value else (c1, none)) with
    | (c2, some e) => (c2, some e)
    | (c2, none) => applyUpdates env skipAttrSet c2 rest

/-- WebComponentBase.setMultipleState: applies every entry, then invokes
render() once directly after the loop. -/
def setMultipleState (env : HandlerEnv) (c : Comp)
    (stateUpdates : List (String × String)) (skipAttrSet : Bool) :
    Comp × Option String :=
  match applyUpdates env skipAttrSet c stateUpdates with
  | (c2, some e) => (c2, some e)
  | (c2, none) => (render c2, none)

/-! ### Listener registry and attachments

The static shadow DOM is a parameter dom : String → List Nat giving for
each selector the identifiers of the shadow descendants
querySelectorAll(selector) returns; the base class never mutates the shadow
tree after construction (render() is a no-op), so the query result is
stable.  EventTarget.addEventListener is idempotent on an already-attached
(event, handler) pair and removeEventListener removes that single entry. -/

/-- EventTarget.addEventListener on one node: no-op when the same
(event, handler) pair is already attached. -/
def insertListener (p : String × Nat) (l : List (String × Nat)) :
    List (String × Nat) :=
  if p ∈ l then l else l ++ [p]

/-- EventTarget.removeEventListener on one node; attachment lists never
hold duplicates, so filtering removes the unique matching entry. -/
def removeListener (p : String × Nat) (l : List (String × Nat)) :
    List (String × Nat) :=
  l.filter (fun q => ¬ q = p)

/-- Attachments currently present on shadow descendant n. -/
def attachedAt (c : Comp) (n : Nat) : List (String × Nat) :=
  (assocGet n c.nodeAttached).getD []

/-- shadowRoot.querySelectorAll(s).forEach(el => el.addEventListener(...)). -/
def attachSelector (dom : String → List Nat) (s e : String) (h : Nat)
    (na : List (Nat × List (String × Nat))) :
    List (Nat × List (String × Nat)) :=
  (dom s).foldl
    (fun na n => assocSet n (insertListener (e, h) ((assocGet n na).getD [])) na)
    na

/-- shadowRoot.querySelectorAll(s).forEach(el => el.removeEventListener(...)). -/
def detachSelector (dom : String → List Nat) (s e : String) (h : Nat)
    (na : List (Nat × List (String × Nat))) :
    List (Nat × List (String × Nat)) :=
  (dom s).foldl
    (fun na n => assocSet n (removeListener (e, h) ((assocGet n na).getD [])) na)
    na

/-- Attach one registration: to every current selector match when a
selector is present, else to the component root via _addEventListener. -/
def attachOne (dom : String → List Nat) (c : Comp) (e : String)
    (sel : Option String) (h : Nat) : Comp :=
  match sel with
  | some s => { c with nodeAttached := attachSelector dom s e h c.nodeAttached }
  | none => { c with rootAttached := insertListener (e, h) c.rootAttached }

/-- Detach one registration, mirroring attachOne. -/
def detachOne (dom : String → List Nat) (c : Comp) (e : String)
    (sel : Option String) (h : Nat) : Comp :=
  match sel with
  | some s => { c with nodeAttached := detachSelector dom s e h c.nodeAttached }
  | none => { c with rootAttached := removeListener (e, h) c.rootAttached }

/-- The registry flattened in Map iteration order, as
(event, selector, handler) triples. -/
def regList (c : Comp) : List (String × Option String × Nat) :=
  c.listeners.flatMap (fun p => p.2.map (fun r => (p.1, r.1, r.2)))

/-- Folding attachOne over a list of registrations. -/
def attachList (dom : String → List Nat) :
    Comp → List (String × Option String × Nat) → Comp
  | c, [] => c
  | c, (e, sel, h) :: rest => attachList dom (attachOne dom c e sel h) rest

/-- Folding detachOne over a list of registrations. -/
def detachList (dom : String → List Nat) :
    Comp → List (String × Option String × Nat) → Comp
  | c, [] => c
  | c, (e, sel, h) :: rest => detachList dom (detachOne dom c e sel h) rest

/-- WebComponentBase.attachEventListeners: attaches every registration. -/
def attachEventListeners (dom : String → List Nat) (c : Comp) : Comp :=
  attachList dom c (regList c)

/-- WebComponentBase.removeEventListeners: detaches every registration. -/
def removeEventListeners (dom : String → List Nat) (c : Comp) : Comp :=
  detachList dom c (regList c)

/-- WebComponentBase.on: appends the registration to the event's list
(creating the list on first use) and attaches immediately when mounted. -/
def onOp (dom : String → List Nat) (c : Comp) (e : String)
    (sel : Option String) (h : Nat) : Comp :=
  let subs := (assocGet e c.listeners).getD []
  let c1 := { c with listeners := assocSet e (subs ++ [(sel, h)]) c.listeners }
  if c.mounted then attachOne dom c1 e sel h else c1

/-- WebComponentBase.off: removes the first registration with identical
selector and handler, detaching it when mounted; no-op when absent. -/
def offOp (dom : String → List Nat) (c : Comp) (e : String)
    (sel : Option String) (h : Nat) : Comp :=
  match assocGet e c.listeners with
  | none => c
  | some subs =>
    match subs.findIdx? (fun r => r = (sel, h)) with
    | none => c
    | some i =>
      let c1 := { c with listeners := assocSet e (subs.eraseIdx i) c.listeners }
      if c.mounted then detachOne dom c1 e sel h else c1

/-- WebComponentBase.queueCommand: appends the command (the typeof guard
admits exactly the callables, which commands here model). -/
def queueCommand (c : Comp) (cmd : Nat) : Comp :=
  { c with queued := c.queued ++ [cmd] }

/-- WebComponentBase.connectedCallback: the browser has set isConnected;
the callback re-attaches every registration, drains queuedCommands in FIFO
order through the while-shift loop (per-command failures swallowed,
execution recorded in execLog), then invokes render(). -/
def connectedCallback (dom : String → List Nat) (c : Comp) : Comp :=
  let c1 := attachEventListeners dom { c with mounted := true }
  let c2 := { c1 with execLog := c1.execLog ++ c1.queued, queued := [] }
  render c2

/-- WebComponentBase.disconnectedCallback: the browser has cleared
isConnected; the callback only detaches every registration. -/
def disconnectedCallback (dom : String → List Nat) (c : Comp) : Comp :=
  removeEventListeners dom { c with mounted := false }

/-- The public operations a client can drive the lifecycle with. -/
inductive COp where
  | mount
  | unmount
  | queue (cmd : Nat)
  | on (e : String) (sel : Option String) (h : Nat)
  | off (e : String) (sel : Option String) (h : Nat)
deriving DecidableEq, Repr

/-- One step of the operational semantics. -/
def stepOp (dom : String → List Nat) (c : Comp) : COp → Comp
  | COp.mount => connectedCallback dom c
  | COp.unmount => disconnectedCallback dom c
  | COp.queue cmd => queueCommand c cmd
  | COp.on e sel h => onOp dom c e sel h
  | COp.off e sel h => offOp dom c e sel h

/-- Running a sequence of operations. -/
def runOps (dom : String → List Nat) (c : Comp) : List COp → Comp
  | [] => c
  | op :: rest => runOps dom (stepOp dom c op) rest

/-- Intended command-execution semantics: each mount drains exactly the
commands queued since the previous mount, in FIFO order. -/
def drainSem (pending : List Nat) : List COp → List Nat
  | [] => []
  | COp.mount :: rest => pending ++ drainSem [] rest
  | COp.queue cmd :: rest => drainSem (pending ++ [cmd]) rest
  | _ :: rest => drainSem pending rest

/-- The (event, handler) pairs of all current registrations. -/
def regPairs (c : Comp) : List (String × Nat) :=
  (regList c).map (fun r => (r.1, r.2.2))

/-- Traces in which no on-registration duplicates the (event, handler)
pair of a registration already present. -/
def okTrace (dom : String → List Nat) (c : Comp) : List COp → Bool
  | [] => true
  | op :: rest =>
    (match op with
     | COp.on e _ h => decide ((e, h) ∉ regPairs c)
     | _ => true) && okTrace dom (stepOp dom c op) rest

/-- A freshly constructed component: initializeAttributes seeds state from
the current DOM value of every observed attribute. -/
def initComp (observed : List String) (attrsInit : List (String × String)) :
    Comp :=
  { observed := observed
    stateMap := observed.map (fun a => (a, assocGet a attrsInit))
    attrs := attrsInit
    mounted := false
    listeners := []
    rootAttached := []
    nodeAttached := []
    queued := []
    execLog := []
    renders := 0
    errlog := [] }

/-- A root attachment (e, h) is owned by a selector-less registration. -/
def ownedRoot (c : Comp) (e : String) (h : Nat) : Prop :=
  ∃ subs, assocGet e c.listeners = some subs ∧ (none, h) ∈ subs

/-- A node attachment (e, h) at n is owned by a selector registration whose
selector currently matches n. -/
def ownedNode (dom : String → List Nat) (c : Comp) (n : Nat) (e : String)
    (h : Nat) : Prop :=
  ∃ s subs, assocGet e c.listeners = some subs ∧ (some s, h) ∈ subs ∧
    n ∈ dom s

/-- Liveness invariant: when mounted, attachments are exactly the ones the
registry owns; when unmounted, there are no attachments at all. -/
def liveOk (dom : String → List Nat) (c : Comp) : Prop :=
  (c.mounted = true →
    (∀ e h, (e, h) ∈ c.rootAttached ↔ ownedRoot c e h) ∧
    (∀ n e h, (e, h) ∈ attachedAt c n ↔ ownedNode dom c n e h)) ∧
  (c.mounted = false →
    c.rootAttached = [] ∧ ∀ n, attachedAt c n = [])

/-- Full listener invariant: the registry Map has no duplicate event keys,
no event maps two registrations to the same handler, and liveOk holds. -/
def listenerInv (dom : String → List Nat) (c : Comp) : Prop :=
  (c.listeners.map Prod.fst).Nodup ∧
  (∀ e subs, assocGet e c.listeners = some subs →
    (subs.map Prod.snd).Nodup) ∧
  liveOk dom c


/-- Valid external identifier shape: every character an ASCII letter. -/
def allAlphaChars (l : List Char) : Bool :=
  l.all (fun c => jsIsUpper c || jsIsLower c)

/-- Valid internal identifier shape: lowercase letters in which every
hyphen is immediately followed by a lowercase letter. -/
def internalOk : List Char → Bool
  | [] => true
  | c :: rest =>
    if c = '-' then
      match rest with
      | [] => false
      | d :: rest2 => jsIsLower d && internalOk rest2
    else jsIsLower c && internalOk rest

/-! ## Character-level lemmas -/

theorem char_toNat_ofNat {n : Nat} (h : n < 55296) : (Char.ofNat n).toNat = n := by
  have hv : n.isValidChar := Or.inl h
  simp [Char.ofNat, hv, Char.ofNatAux, Char.toNat, UInt32.toNat]

theorem jsIsUpper_iff {c : Char} :
    jsIsUpper c = true ↔ 65 ≤ c.toNat ∧ c.toNat ≤ 90 := by
  simp [jsIsUpper]

theorem jsIsLower_iff {c : Char} :
    jsIsLower c = true ↔ 97 ≤ c.toNat ∧ c.toNat ≤ 122 := by
  simp [jsIsLower]

theorem jsIsLower_toLowerChar {c : Char} (h : jsIsUpper c = true) :
    jsIsLower (jsToLowerChar c) = true := by
  obtain ⟨h1, h2⟩ := jsIsUpper_iff.mp h
  have ht : (Char.ofNat (c.toNat + 32)).toNat = c.toNat + 32 :=
    char_toNat_ofNat (by omega)
  rw [jsToLowerChar, if_pos h]
  rw [jsIsLower_iff]
  omega

theorem jsToUpperChar_toLowerChar {c : Char} (h : jsIsUpper c = true) :
    jsToUpperChar (jsToLowerChar c) = c := by
  obtain ⟨h1, h2⟩ := jsIsUpper_iff.mp h
  have ht : (Char.ofNat (c.toNat + 32)).toNat = c.toNat + 32 :=
    char_toNat_ofNat (by omega)
  have hl : jsIsLower (Char.ofNat (c.toNat + 32)) = true := by
    rw [jsIsLower_iff]
    omega
  rw [jsToLowerChar, if_pos h, jsToUpperChar, if_pos hl, ht]
  have h32 : c.toNat + 32 - 32 = c.toNat := by omega
  rw [h32, Char.ofNat_toNat]

theorem jsIsUpper_toUpperChar {c : Char} (h : jsIsLower c = true) :
    jsIsUpper (jsToUpperChar c) = true := by
  obtain ⟨h1, h2⟩ := jsIsLower_iff.mp h
  have ht : (Char.ofNat (c.toNat - 32)).toNat = c.toNat - 32 :=
    char_toNat_ofNat (by omega)
  rw [jsToUpperChar, if_pos h]
  rw [jsIsUpper_iff]
  omega

theorem jsToLowerChar_toUpperChar {c : Char} (h : jsIsLower c = true) :
    jsToLowerChar (jsToUpperChar c) = c := by
  obtain ⟨h1, h2⟩ := jsIsLower_iff.mp h
  have ht : (Char.ofNat (c.toNat - 32)).toNat = c.toNat - 32 :=
    char_toNat_ofNat (by omega)
  have hu : jsIsUpper (Char.ofNat (c.toNat - 32)) = true := by
    rw [jsIsUpper_iff]
    omega
  rw [jsToUpperChar, if_pos h, jsToLowerChar, if_pos hu, ht]
  have h32 : c.toNat - 32 + 32 = c.toNat := by omega
  rw [h32, Char.ofNat_toNat]

theorem lower_not_upper {c : Char} (h : jsIsLower c = true) :
    jsIsUpper c = false := by
  obtain ⟨h1, h2⟩ := jsIsLower_iff.mp h
  rw [jsIsUpper]
  simp
  omega

theorem lower_ne_hyphen {c : Char} (h : jsIsLower c = true) : ¬ c = '-' := by
  intro hc
  subst hc
  exact absurd h (by decide)

theorem upper_ne_hyphen {c : Char} (h : jsIsUpper c = true) : ¬ c = '-' := by
  intro hc
  subst hc
  exact absurd h (by decide)

theorem jsToLowerChar_not_upper {c : Char} :
    jsIsUpper (jsToLowerChar c) = false := by
  by_cases h : jsIsUpper c = true
  · exact lower_not_upper (jsIsLower_toLowerChar h)
  · rw [jsToLowerChar, if_neg h]
    exact Bool.eq_false_iff.mpr (fun hc => h hc)

/-! ## Step equations for the recursive string transforms -/

theorem c2k_cons (c : Char) (rest : List Char) :
    camelToKebabChars (c :: rest) =
      if jsIsUpper c then '-' :: jsToLowerChar c :: camelToKebabChars rest
      else c :: camelToKebabChars rest := rfl

theorem k2c_hyphen_nil : kebabToCamelChars ['-'] = ['-'] := rfl

theorem k2c_hyphen_cons (d : Char) (rest2 : List Char) :
    kebabToCamelChars ('-' :: d :: rest2) =
      if jsIsLower d then jsToUpperChar d :: kebabToCamelChars rest2
      else '-' :: kebabToCamelChars (d :: rest2) := rfl

theorem k2c_cons (c : Char) (rest : List Char) (h : ¬ c = '-') :
    kebabToCamelChars (c :: rest) = c :: kebabToCamelChars rest := by
  rw [kebabToCamelChars.eq_def]
  simp [h]

theorem internalOk_hyphen_nil : internalOk ['-'] = false := rfl

theorem internalOk_hyphen_cons (d : Char) (rest2 : List Char) :
    internalOk ('-' :: d :: rest2) = (jsIsLower d && internalOk rest2) := rfl

theorem internalOk_cons (c : Char) (rest : List Char) (h : ¬ c = '-') :
    internalOk (c :: rest) = (jsIsLower c && internalOk rest) := by
  rw [internalOk.eq_def]
  simp [h]

/-! ## Round-trip lemmas for the name normalization -/

theorem allAlphaChars_cons {c : Char} {rest : List Char} :
    allAlphaChars (c :: rest) = true ↔
      (jsIsUpper c = true ∨ jsIsLower c = true) ∧ allAlphaChars rest = true := by
  simp [allAlphaChars]

theorem kebab_camel_kebab : ∀ (u : List Char), allAlphaChars u = true →
    kebabToCamelChars (camelToKebabChars u) = u
  | [], _ => rfl
  | c :: rest, h => by
    obtain ⟨hc, hrest⟩ := allAlphaChars_cons.mp h
    have ih := kebab_camel_kebab rest hrest
    rcases hc with hu | hl
    · have hlow := jsIsLower_toLowerChar hu
      rw [c2k_cons, if_pos hu, k2c_hyphen_cons, if_pos hlow,
        jsToUpperChar_toLowerChar hu, ih]
    · have hne := lower_ne_hyphen hl
      rw [c2k_cons,
        if_neg (by rw [lower_not_upper hl]; exact Bool.false_ne_true),
        k2c_cons c _ hne, ih]

theorem camel_kebab_camel : ∀ (t : List Char), internalOk t = true →
    camelToKebabChars (kebabToCamelChars t) = t
  | [], _ => rfl
  | ['-'], h => by
    rw [internalOk_hyphen_nil] at h
    exact absurd h (by decide)
  | '-' :: d :: rest2, h => by
    rw [internalOk_hyphen_cons, Bool.and_eq_true] at h
    have ih := camel_kebab_camel rest2 h.2
    rw [k2c_hyphen_cons, if_pos h.1, c2k_cons, if_pos (jsIsUpper_toUpperChar h.1),
      jsToLowerChar_toUpperChar h.1, ih]
  | c :: rest, h => by
    by_cases hc : c = '-'
    · subst hc
      match rest, h with
      | [], h =>
        rw [internalOk_hyphen_nil] at h
        exact absurd h (by decide)
      | d :: rest2, h =>
        rw [internalOk_hyphen_cons, Bool.and_eq_true] at h
        have ih := camel_kebab_camel rest2 h.2
        rw [k2c_hyphen_cons, if_pos h.1, c2k_cons,
          if_pos (jsIsUpper_toUpperChar h.1), jsToLowerChar_toUpperChar h.1, ih]
    · rw [internalOk_cons c rest hc, Bool.and_eq_true] at h
      have ih := camel_kebab_camel rest h.2
      rw [k2c_cons c rest hc, c2k_cons,
        if_neg (by rw [lower_not_upper h.1]; exact Bool.false_ne_true), ih]

theorem k2c_head_ne_hyphen : ∀ (t : List Char), internalOk t = true →
    stripMarker (kebabToCamelChars t) = kebabToCamelChars t
  | [], _ => rfl
  | ['-'], h => by
    rw [internalOk_hyphen_nil] at h
    exact absurd h (by decide)
  | '-' :: d :: rest2, h => by
    rw [internalOk_hyphen_cons, Bool.and_eq_true] at h
    rw [k2c_hyphen_cons, if_pos h.1, stripMarker]
    have hne := upper_ne_hyphen (jsIsUpper_toUpperChar h.1)
    cases hk : kebabToCamelChars rest2 with
    | nil => simp [hne]
    | cons x xs => simp [hne]
  | c :: rest, h => by
    by_cases hc : c = '-'
    · subst hc
      match rest, h with
      | [], h =>
        rw [internalOk_hyphen_nil] at h
        exact absurd h (by decide)
      | d :: rest2, h =>
        rw [internalOk_hyphen_cons, Bool.and_eq_true] at h
        rw [k2c_hyphen_cons, if_pos h.1, stripMarker]
        have hne := upper_ne_hyphen (jsIsUpper_toUpperChar h.1)
        cases hk : kebabToCamelChars rest2 with
        | nil => simp [hne]
        | cons x xs => simp [hne]
    · rw [internalOk_cons c rest hc, Bool.and_eq_true] at h
      rw [k2c_cons c rest hc, stripMarker]
      cases hk : kebabToCamelChars rest with
      | nil => simp [hc]
      | cons x xs => simp [hc]

theorem c2k_no_upper : ∀ (l : List Char) (c : Char),
    c ∈ camelToKebabChars l → jsIsUpper c = false
  | [], c, h => absurd h (List.not_mem_nil c)
  | a :: rest, c, h => by
    rw [c2k_cons] at h
    by_cases ha : jsIsUpper a = true
    · rw [if_pos ha] at h
      simp only [List.mem_cons] at h
      rcases h with h | h | h
      · subst h
        decide
      · subst h
        exact jsToLowerChar_not_upper
      · exact c2k_no_upper rest c h
    · rw [if_neg ha] at h
      simp only [List.mem_cons] at h
      rcases h with h | h
      · subst h
        exact Bool.eq_false_iff.mpr ha
      · exact c2k_no_upper rest c h

theorem c2k_id_of_no_upper : ∀ (l : List Char),
    (∀ c ∈ l, jsIsUpper c = false) → camelToKebabChars l = l
  | [], _ => rfl
  | a :: rest, h => by
    have ha : jsIsUpper a = false := h a (List.mem_cons_self a rest)
    rw [c2k_cons, if_neg (by rw [ha]; exact Bool.false_ne_true),
      c2k_id_of_no_upper rest (fun c hc => h c (List.mem_cons_of_mem a hc))]

/-- C7: normalization and denormalization are mutually inverse on valid
identifiers.  An external identifier is a run of ASCII letters, optionally
preceded by the "--" marker which normalization strips; an internal
identifier is lowercase with every hyphen followed by a lowercase letter.
Denormalizing a normalized external name returns the marker-stripped
original, and normalizing a denormalized internal name returns the
original. -/
theorem normalization_round_trips :
    (∀ s : String, allAlphaChars (stripMarker s.data) = true →
      denormalizeProp (normalizeProp s) = String.mk (stripMarker s.data)) ∧
    (∀ t : String, internalOk t.data = true →
      normalizeProp (denormalizeProp t) = t) := by
  constructor
  · intro s h
    show String.mk (kebabToCamelChars (camelToKebabChars (stripMarker s.data))) =
      String.mk (stripMarker s.data)
    rw [kebab_camel_kebab (stripMarker s.data) h]
  · intro t h
    show String.mk (camelToKebabChars (stripMarker (kebabToCamelChars t.data))) = t
    rw [k2c_head_ne_hyphen t.data h, camel_kebab_camel t.data h]

/-- Witness for C7 at concrete identifiers in both directions. -/
theorem normalization_round_trips_witness :
    denormalizeProp (normalizeProp "--backgroundColor") = "backgroundColor" ∧
    normalizeProp (denormalizeProp "background-color") = "background-color" := by
  constructor
  · exact (normalization_round_trips.1 "--backgroundColor" (by decide)).trans
      (by decide)
  · exact normalization_round_trips.2 "background-color" (by decide)

/-- C10 counterexample: normalizeProp is not idempotent as claimed for
every string; on "-A" one application yields "--a" and a second
application strips the marker, yielding "a". -/
theorem normalizeProp_not_idempotent :
    normalizeProp "-A" = "--a" ∧ normalizeProp (normalizeProp "-A") = "a" ∧
    ¬ normalizeProp (normalizeProp "-A") = normalizeProp "-A" := by
  refine ⟨by decide, by decide, by decide⟩

/-- C10 amended: normalizeProp is idempotent on every string whose
normalized form does not begin with the "--" marker (in particular on all
camelCase and kebab-case identifiers). -/
theorem normalizeProp_idem (s : String)
    (h : ¬ (normalizeProp s).data.take 2 = ['-', '-']) :
    normalizeProp (normalizeProp s) = normalizeProp s := by
  have key : camelToKebabChars (stripMarker (normalizeProp s).data) =
      (normalizeProp s).data := by
    rw [stripMarker, if_neg h]
    exact c2k_id_of_no_upper (normalizeProp s).data
      (fun c hc => c2k_no_upper (stripMarker s.data) c hc)
  calc normalizeProp (normalizeProp s)
      = String.mk (camelToKebabChars (stripMarker (normalizeProp s).data)) := rfl
    _ = String.mk (normalizeProp s).data := by rw [key]
    _ = normalizeProp s := rfl

/-- Witness for C10 amended at a camelCase identifier. -/
theorem normalizeProp_idem_witness :
    normalizeProp (normalizeProp "fooBar") = normalizeProp "fooBar" :=
  normalizeProp_idem "fooBar" (by decide)

/-! ## StyleManager lemmas -/

theorem spfm_cons (sel name v : String) (r : CSSRule) (rs : List CSSRule) :
    setPropFirstMatch sel name v (r :: rs) =
      if r.selectorText = sel then
        ⟨r.selectorText, setPropertyDecls name v r.decls⟩ :: rs
      else r :: setPropFirstMatch sel name v rs := rfl

theorem find?_setPropFirstMatch (sel name v : String) : ∀ (rules : List CSSRule),
    (setPropFirstMatch sel name v rules).find? (fun r => r.selectorText = sel) =
      some ⟨sel, setPropertyDecls name v
        ((rules.find? (fun r => r.selectorText = sel)).elim [] CSSRule.decls)⟩
  | [] => by
    simp [setPropFirstMatch, List.find?]
  | r :: rs => by
    rw [spfm_cons]
    by_cases hr : r.selectorText = sel
    · rw [if_pos hr]
      rw [List.find?_cons_of_pos _ (by simpa using hr),
        List.find?_cons_of_pos _ (by simpa using hr)]
      simp [hr]
    · rw [if_neg hr]
      rw [List.find?_cons_of_neg _ (by simpa using hr),
        List.find?_cons_of_neg _ (by simpa using hr)]
      exact find?_setPropFirstMatch sel name v rs

theorem find?_map_update (name v : String) : ∀ (decls : List (String × String)),
    decls.any (fun d => d.1 = name) = true →
    (decls.map (fun d => if d.1 = name then (name, v) else d)).find?
      (fun d => d.1 = name) = some (name, v)
  | [], h => by simp at h
  | d :: ds, h => by
    by_cases hd : d.1 = name
    · rw [List.map_cons, if_pos hd]
      rw [List.find?_cons_of_pos _ (by simp)]
    · rw [List.map_cons, if_neg hd]
      rw [List.find?_cons_of_neg _ (by simpa using hd)]
      have hds : ds.any (fun d => d.1 = name) = true := by
        rcases List.any_eq_true.mp h with ⟨x, hx, hpx⟩
        rcases List.mem_cons.mp hx with hx | hx
        · subst hx
          exact absurd (by simpa using hpx) hd
        · exact List.any_eq_true.mpr ⟨x, hx, hpx⟩
      exact find?_map_update name v ds hds

theorem getPropertyValue_setProperty (name v : String)
    (decls : List (String × String)) :
    getPropertyValueDecls name (setPropertyDecls name v decls) =
      if v = "" then "" else v := by
  by_cases hv : v = ""
  · rw [setPropertyDecls, if_pos hv, if_pos hv, getPropertyValueDecls]
    have hnone : (decls.filter (fun d => ¬ d.1 = name)).find?
        (fun d => d.1 = name) = none := by
      rw [List.find?_eq_none]
      intro x hx
      have := (List.mem_filter.mp hx).2
      simpa using this
    rw [hnone]
  · rw [setPropertyDecls, if_neg hv, if_neg hv]
    by_cases ha : decls.any (fun d => d.1 = name) = true
    · rw [if_pos ha, getPropertyValueDecls, find?_map_update name v decls ha]
    · rw [if_neg ha, getPropertyValueDecls]
      have hnone : decls.find? (fun d => d.1 = name) = none := by
        rw [List.find?_eq_none]
        intro x hx hpx
        exact ha (List.any_eq_true.mpr ⟨x, hx, by simpa using hpx⟩)
      rw [List.find?_append, hnone]
      simp [List.find?]

/-- C3 amended: when the managed style element is connected, setting a
variable through the proxy throws nothing and immediately reading it back
returns the value trimmed of surrounding whitespace, for names in external
camelCase or internal kebab-case form, with or without the leading "--"
marker (both traps normalize the name identically). -/
theorem style_variable_round_trip (sm : StyleManager) (N V : String)
    (hc : sm.styleElement.isConnected = true) :
    (varSet sm N V).2 = none ∧
    varGet (varSet sm N V).1 N = some V.trim := by
  have hv : varSet sm N V = (updateStyleElement { sm with styleElement := { sm.styleElement with cssRules := setPropFirstMatch sm.selector ("--" ++ normalizeProp N) V sm.styleElement.cssRules } }, none) := by
    rw [varSet, setVariable, if_pos hc]
  refine ⟨by rw [hv], ?_⟩
  have hconn : (varSet sm N V).1.styleElement.isConnected =
      sm.styleElement.isConnected := by
    rw [hv]; rfl
  have hsel : (varSet sm N V).1.selector = sm.selector := by
    rw [hv]; rfl
  have hrules : (varSet sm N V).1.styleElement.cssRules =
      setPropFirstMatch sm.selector ("--" ++ normalizeProp N) V
        sm.styleElement.cssRules := by
    rw [hv]; rfl
  show getVariable (varSet sm N V).1 (normalizeProp N) = some V.trim
  rw [getVariable, getRuleSet, hconn, hc, hsel, hrules]
  simp only [Bool.true_eq_false, if_false]
  rw [find?_setPropFirstMatch]
  rw [Option.map_some']
  rw [getPropertyValue_setProperty]
  by_cases hve : V = ""
  · rw [if_pos hve, hve]
  · rw [if_neg hve]

/-- Witness for C3 amended: a camelCase name set on a connected manager
throws nothing and reads back trimmed. -/
theorem style_variable_round_trip_witness :
    (varSet ⟨⟨true, [], ""⟩, ":host"⟩ "buttonRadius" " 10px ").2 = none ∧
    varGet (varSet ⟨⟨true, [], ""⟩, ":host"⟩ "buttonRadius" " 10px ").1
      "buttonRadius" = some " 10px ".trim :=
  style_variable_round_trip ⟨⟨true, [], ""⟩, ":host"⟩ "buttonRadius" " 10px "
    rfl

/-- C3 counterexample: on a manager whose style element is not connected,
set does not store the value: getRuleSet yields null, so setVariable falls
into createRuleSet, which dereferences the null sheet of the unconnected
style element and throws a TypeError, leaving the manager unchanged; a
subsequent get returns null rather than the value. -/
theorem style_variable_round_trip_cex :
    (varSet ⟨⟨false, [], ""⟩, ":host"⟩ "x" "v").2 = some "TypeError" ∧
    (varSet ⟨⟨false, [], ""⟩, ":host"⟩ "x" "v").1 = ⟨⟨false, [], ""⟩, ":host"⟩ ∧
    varGet (varSet ⟨⟨false, [], ""⟩, ":host"⟩ "x" "v").1 "x" = none ∧
    ¬ varGet (varSet ⟨⟨false, [], ""⟩, ":host"⟩ "x" "v").1 "x" = some "v" := by
  exact ⟨by decide, by decide, by decide, by decide⟩

/-- C4: removeVariable returns true whenever the scope rule exists, even
when the removed name was never set, contradicting both the claim and the
jsdoc of removeVariable; here "b" is unset (hasVariable is false) yet
remove("b") returns true. -/
theorem removeVariable_unset_returns_true :
    varHas ⟨⟨true, [⟨":host", [("--a", "1")]⟩], ""⟩, ":host"⟩ "b" = false ∧
    (varRemove ⟨⟨true, [⟨":host", [("--a", "1")]⟩], ""⟩, ":host"⟩ "b").1 =
      true := by
  exact ⟨by decide, by decide⟩

/-- C9: when the managed style element is not connected, every read
behaves as if no variables exist: get returns null, has and remove return
false, and the name enumeration is empty. -/
theorem disconnected_reads (sm : StyleManager) (N : String)
    (h : sm.styleElement.isConnected = false) :
    varGet sm N = none ∧ varHas sm N = false ∧ (varRemove sm N).1 = false ∧
    getVariableNames sm = [] := by
  have hR : getRuleSet sm sm.selector = none := by
    rw [getRuleSet, if_pos h]
  refine ⟨?_, ?_, ?_, ?_⟩
  · rw [varGet, getVariable, hR]
    rfl
  · rw [varHas, hasVariable, hR]
    rfl
  · rw [varRemove, removeVariable, hR]
    simp
  · rw [getVariableNames, hR]
    rfl

/-- Witness for C9 on a concrete disconnected manager. -/
theorem disconnected_reads_witness :
    varGet ⟨⟨false, [⟨":root", [("--a", "1")]⟩], ""⟩, ":root"⟩ "a" = none ∧
    varHas ⟨⟨false, [⟨":root", [("--a", "1")]⟩], ""⟩, ":root"⟩ "a" = false ∧
    (varRemove ⟨⟨false, [⟨":root", [("--a", "1")]⟩], ""⟩, ":root"⟩ "a").1 =
      false ∧
    getVariableNames ⟨⟨false, [⟨":root", [("--a", "1")]⟩], ""⟩, ":root"⟩ = [] :=
  disconnected_reads ⟨⟨false, [⟨":root", [("--a", "1")]⟩], ""⟩, ":root"⟩ "a" rfl

/-! ## Association-list lemmas -/

theorem assocGet_set_self {κ α : Type} [DecidableEq κ] (k : κ) (v : α) :
    ∀ (l : List (κ × α)), assocGet k (assocSet k v l) = some v
  | [] => by simp [assocSet, assocGet]
  | (k2, v2) :: rest => by
    by_cases h : k2 = k
    · simp [assocSet, assocGet, h]
    · simp [assocSet, assocGet, h, assocGet_set_self k v rest]

theorem assocGet_set_ne {κ α : Type} [DecidableEq κ] {k k2 : κ} (v : α)
    (h : ¬ k2 = k) :
    ∀ (l : List (κ × α)), assocGet k (assocSet k2 v l) = assocGet k l
  | [] => by simp [assocSet, assocGet, h]
  | (k3, v3) :: rest => by
    by_cases h3 : k3 = k2
    · subst h3
      simp [assocSet, assocGet, h]
    · simp [assocSet, assocGet, h3, assocGet_set_ne v h rest]

/-! ## Attribute-change reaction: error handling (C5) -/

theorem resolveHandler_empty (p : String) : resolveHandler emptyEnv p = none :=
  rfl

theorem acc_empty (c : Comp) (name : String) (o nv : Option String) :
    attributeChangedCallback emptyEnv c name o nv =
      (render { c with stateMap := assocSet name nv c.stateMap }, none) := rfl

/-- C5: the attribute-change reaction returns normally for every handler
environment and input (second component none: no exception escapes); and
whenever the resolved handler throws, the reaction keeps the state the
handler produced, appends the thrown message to the console.error log, and
still invokes render() afterwards. -/
theorem attribute_reaction_swallows (env : HandlerEnv) (c : Comp)
    (name : String) (oldValue newValue : Option String) :
    (attributeChangedCallback env c name oldValue newValue).2 = none ∧
    (∀ h c2 e,
      resolveHandler env (jsStrToLower name) = some h →
      h oldValue newValue
          { c with stateMap := assocSet name newValue c.stateMap } =
        (c2, some e) →
      (attributeChangedCallback env c name oldValue newValue).1 =
        render { c2 with errlog := c2.errlog ++ [e] }) := by
  constructor
  · rfl
  · intro h c2 e hres hthrow
    simp only [attributeChangedCallback, hres, hthrow]

/-- Witness for C5: a concrete component whose onColorChanged handler
throws; the reaction logs the message, keeps the handler's state, renders,
and does not propagate. -/
theorem attribute_reaction_swallows_witness :
    (attributeChangedCallback
        ⟨[("onColorChanged", fun _ _ c => (c, some "boom"))], []⟩
        (initComp ["color"] []) "color" none (some "red")).2 = none ∧
    (attributeChangedCallback
        ⟨[("onColorChanged", fun _ _ c => (c, some "boom"))], []⟩
        (initComp ["color"] []) "color" none (some "red")).1 =
      render { initComp ["color"] [] with
        stateMap := assocSet "color" (some "red") (initComp ["color"] []).stateMap,
        errlog := ["boom"] } := by
  have t := attribute_reaction_swallows
    ⟨[("onColorChanged", fun _ _ c => (c, some "boom"))], []⟩
    (initComp ["color"] []) "color" none (some "red")
  refine ⟨t.1, ?_⟩
  have h2 := t.2 (fun _ _ c => (c, some "boom"))
    { initComp ["color"] [] with
      stateMap := assocSet "color" (some "red") (initComp ["color"] []).stateMap }
    "boom" rfl rfl
  rw [h2]
  decide

/-! ## State proxy writes skip attribute propagation (C8) -/

theorem setState_obs_attrs (c : Comp) (k v : String) (hobs : k ∈ c.observed) :
    (setState emptyEnv c k v false).1.attrs = assocSet k v c.attrs := by
  simp only [setState, setAttribute, acc_empty]
  split_ifs with h1
  · rfl
  · exact absurd ⟨hobs, trivial⟩ h1

/-- C8: an assignment through the public state proxy runs setState with
attribute propagation skipped: the state entry is written, render() is
invoked once, no exception escapes, and the DOM attributes are left
unchanged even when the key is an observed attribute; by contrast a direct
setState with default arguments on an observed key of the base component
writes the DOM attribute. -/
theorem state_proxy_skips_attributes (env : HandlerEnv) (c : Comp)
    (k v : String) :
    (stateProxySet env c k v).2 = none ∧
    (stateProxySet env c k v).1.attrs = c.attrs ∧
    assocGet k (stateProxySet env c k v).1.stateMap = some (some v) ∧
    (stateProxySet env c k v).1.renders = c.renders + 1 ∧
    (k ∈ c.observed →
      assocGet k (setState emptyEnv c k v false).1.attrs = some v) := by
  have hskip :
      ¬ (k ∈ ({ c with stateMap := assocSet k (some v) c.stateMap } : Comp).observed ∧
        (true : Bool) = false) := by
    simp
  refine ⟨?_, ?_, ?_, ?_, ?_⟩
  · simp only [stateProxySet, setState, if_neg hskip]
  · simp only [stateProxySet, setState, if_neg hskip]
    rfl
  · simp only [stateProxySet, setState, if_neg hskip]
    exact assocGet_set_self k (some v) c.stateMap
  · simp only [stateProxySet, setState, if_neg hskip]
    rfl
  · intro hobs
    rw [setState_obs_attrs c k v hobs]
    exact assocGet_set_self k v c.attrs

/-- Witness for C8 on a concrete component with an observed key. -/
theorem state_proxy_skips_attributes_witness :
    (stateProxySet emptyEnv (initComp ["color"] []) "color" "red").1.attrs =
      (initComp ["color"] []).attrs ∧
    assocGet "color" (setState emptyEnv (initComp ["color"] []) "color" "red"
      false).1.attrs = some "red" := by
  have t := state_proxy_skips_attributes emptyEnv (initComp ["color"] [])
    "color" "red"
  exact ⟨t.2.1, t.2.2.2.2 (by decide)⟩

theorem setAttribute_empty_obs (c : Comp) (k v : String) (h : k ∈ c.observed) :
    setAttribute emptyEnv c k v =
      (render
        { c with
          attrs := assocSet k v c.attrs
          stateMap := assocSet k (some v) c.stateMap },
        none) := by
  simp only [setAttribute, if_pos h, acc_empty]

theorem applyUpdates_empty_spec (skip : Bool) :
    ∀ (updates : List (String × String)) (c : Comp),
    (applyUpdates emptyEnv skip c updates).2 = none ∧
    (applyUpdates emptyEnv skip c updates).1.observed = c.observed ∧
    (applyUpdates emptyEnv skip c updates).1.errlog = c.errlog ∧
    (applyUpdates emptyEnv skip c updates).1.renders =
      c.renders + (if skip = true then 0 else
        (updates.filter (fun u => u.1 ∈ c.observed)).length) ∧
    (∀ k, ¬ k ∈ updates.map Prod.fst →
      assocGet k (applyUpdates emptyEnv skip c updates).1.stateMap =
        assocGet k c.stateMap ∧
      assocGet k (applyUpdates emptyEnv skip c updates).1.attrs =
        assocGet k c.attrs)
  | [], c => by simp [applyUpdates]
  | (key, value) :: rest, c => by
    have IH := applyUpdates_empty_spec skip rest
    by_cases hskip : skip = false
    · subst hskip
      by_cases hobs : key ∈ c.observed
      · simp only [applyUpdates, hobs, setAttribute_empty_obs, and_self, if_true]
        refine ⟨(IH _).1, (IH _).2.1, (IH _).2.2.1, ?_, ?_⟩
        · rw [(IH _).2.2.2.1]
          simp [List.filter_cons, hobs, render]
          omega
        · intro k hk
          have hk1 : ¬ key = k := by
            intro h
            exact hk (by simp [h])
          have hk2 : ¬ k ∈ rest.map Prod.fst := by
            intro h
            exact hk (by simp [h])
          obtain ⟨hs, ha⟩ := (IH _).2.2.2.2 k hk2
          constructor
          · rw [hs]
            show assocGet k (assocSet key (some value)
              (assocSet key (some value) c.stateMap)) = assocGet k c.stateMap
            rw [assocGet_set_ne _ hk1, assocGet_set_ne _ hk1]
          · rw [ha]
            show assocGet k (assocSet key value c.attrs) = assocGet k c.attrs
            rw [assocGet_set_ne _ hk1]
      · simp only [applyUpdates, hobs, false_and, if_false]
        refine ⟨(IH _).1, (IH _).2.1, (IH _).2.2.1, ?_, ?_⟩
        · rw [(IH _).2.2.2.1]
          simp [List.filter_cons, hobs]
        · intro k hk
          have hk1 : ¬ key = k := by
            intro h
            exact hk (by simp [h])
          have hk2 : ¬ k ∈ rest.map Prod.fst := by
            intro h
            exact hk (by simp [h])
          obtain ⟨hs, ha⟩ := (IH _).2.2.2.2 k hk2
          constructor
          · rw [hs]
            show assocGet k (assocSet key (some value) c.stateMap) =
              assocGet k c.stateMap
            rw [assocGet_set_ne _ hk1]
          · exact ha
    · have hsk : skip = true := by
        cases skip
        · exact absurd rfl hskip
        · rfl
      subst hsk
      simp only [applyUpdates, Bool.true_eq_false, and_false, if_false]
      refine ⟨(IH _).1, (IH _).2.1, (IH _).2.2.1, ?_, ?_⟩
      · rw [(IH _).2.2.2.1]
        simp
      · intro k hk
        have hk1 : ¬ key = k := by
          intro h
          exact hk (by simp [h])
        have hk2 : ¬ k ∈ rest.map Prod.fst := by
          intro h
          exact hk (by simp [h])
        obtain ⟨hs, ha⟩ := (IH _).2.2.2.2 k hk2
        constructor
        · rw [hs]
          show assocGet k (assocSet key (some value) c.stateMap) =
            assocGet k c.stateMap
          rw [assocGet_set_ne _ hk1]
        · exact ha

theorem applyUpdates_empty_applied (skip : Bool) :
    ∀ (updates : List (String × String)) (c : Comp),
    (updates.map Prod.fst).Nodup →
    ∀ kv, kv ∈ updates →
      assocGet kv.1 (applyUpdates emptyEnv skip c updates).1.stateMap =
        some (some kv.2) ∧
      (kv.1 ∈ c.observed ∧ skip = false →
        assocGet kv.1 (applyUpdates emptyEnv skip c updates).1.attrs =
          some kv.2)
  | [], _, _, kv, hkv => absurd hkv (List.not_mem_nil kv)
  | (key, value) :: rest, c, hnd, kv, hkv => by
    have hnd1 : (key :: rest.map Prod.fst).Nodup := by simpa using hnd
    have hkeyrest : ¬ key ∈ rest.map Prod.fst := (List.nodup_cons.mp hnd1).1
    have hnd2 : (rest.map Prod.fst).Nodup := (List.nodup_cons.mp hnd1).2
    have IH := applyUpdates_empty_applied skip rest
    have FR := applyUpdates_empty_spec skip rest
    rcases List.mem_cons.mp hkv with hkv1 | hkv2
    · subst hkv1
      by_cases hskip : skip = false
      · subst hskip
        by_cases hobs : key ∈ c.observed
        · simp only [applyUpdates, hobs, setAttribute_empty_obs, and_self,
            if_true]
          constructor
          · rw [((FR _).2.2.2.2 key hkeyrest).1]
            show assocGet key (assocSet key (some value)
              (assocSet key (some value) c.stateMap)) = some (some value)
            rw [assocGet_set_self]
          · intro _
            rw [((FR _).2.2.2.2 key hkeyrest).2]
            show assocGet key (assocSet key value c.attrs) = some value
            rw [assocGet_set_self]
        · simp only [applyUpdates, hobs, false_and, if_false]
          constructor
          · rw [((FR _).2.2.2.2 key hkeyrest).1]
            show assocGet key (assocSet key (some value) c.stateMap) =
              some (some value)
            rw [assocGet_set_self]
          · intro hcontra
            exact hcontra.elim
      · have hsk : skip = true := by
          cases skip
          · exact absurd rfl hskip
          · rfl
        subst hsk
        simp only [applyUpdates, Bool.true_eq_false, and_false, if_false]
        constructor
        · rw [((FR _).2.2.2.2 key hkeyrest).1]
          show assocGet key (assocSet key (some value) c.stateMap) =
            some (some value)
          rw [assocGet_set_self]
        · intro hcontra
          exact hcontra.elim
    · by_cases hskip : skip = false
      · subst hskip
        by_cases hobs : key ∈ c.observed
        · simp only [applyUpdates, hobs, setAttribute_empty_obs, and_self,
            if_true]
          exact ⟨(IH _ hnd2 kv hkv2).1,
            fun hc => (IH _ hnd2 kv hkv2).2 ⟨hc.1, rfl⟩⟩
        · simp only [applyUpdates, hobs, false_and, if_false]
          exact ⟨(IH _ hnd2 kv hkv2).1,
            fun hc => (IH _ hnd2 kv hkv2).2 ⟨hc.1, rfl⟩⟩
      · have hsk : skip = true := by
          cases skip
          · exact absurd rfl hskip
          · rfl
        subst hsk
        simp only [applyUpdates, Bool.true_eq_false, and_false, if_false]
        exact ⟨(IH _ hnd2 kv hkv2).1, fun hc => hc.elim⟩

/-- C2 amended: for the base component (no change handlers), one call to
setMultipleState applies every entry to state, writes the DOM attribute for
every observed key when propagation is not skipped, performs exactly one
direct render() call after the loop, and never throws; but each propagated
observed-attribute write synchronously re-enters attributeChangedCallback,
which also calls render(), so the total number of render() invocations is
1 plus the number of propagated observed entries, rather than exactly 1. -/
theorem setMultipleState_spec (c : Comp) (updates : List (String × String))
    (skip : Bool) (hnd : (updates.map Prod.fst).Nodup) :
    (setMultipleState emptyEnv c updates skip).2 = none ∧
    (setMultipleState emptyEnv c updates skip).1.renders =
      c.renders + 1 + (if skip = true then 0 else
        (updates.filter (fun u => u.1 ∈ c.observed)).length) ∧
    (∀ kv, kv ∈ updates →
      assocGet kv.1 (setMultipleState emptyEnv c updates skip).1.stateMap =
        some (some kv.2) ∧
      (kv.1 ∈ c.observed ∧ skip = false →
        assocGet kv.1 (setMultipleState emptyEnv c updates skip).1.attrs =
          some kv.2)) := by
  obtain ⟨h2, hobsEq, herr, hrend, hframe⟩ := applyUpdates_empty_spec skip updates c
  have hB := applyUpdates_empty_applied skip updates c hnd
  rcases hap : applyUpdates emptyEnv skip c updates with ⟨c2, th⟩
  rw [hap] at h2 hrend
  cases th with
  | some e => exact absurd h2 (by simp)
  | none =>
    rw [hap] at hB
    simp only [setMultipleState, hap]
    refine ⟨trivial, ?_, ?_⟩
    · show c2.renders + 1 = _
      rw [hrend]
      omega
    · intro kv hkv
      exact hB kv hkv

/-- Witness for C2 amended on a concrete component with two observed keys. -/
theorem setMultipleState_spec_witness :
    (setMultipleState emptyEnv (initComp ["color", "size"] [])
      [("color", "red"), ("size", "large")] false).2 = none ∧
    assocGet "color" (setMultipleState emptyEnv (initComp ["color", "size"] [])
      [("color", "red"), ("size", "large")] false).1.attrs = some "red" := by
  have t := setMultipleState_spec (initComp ["color", "size"] [])
    [("color", "red"), ("size", "large")] false (by decide)
  exact ⟨t.1, (t.2.2 ("color", "red") (by decide)).2 ⟨by decide, rfl⟩⟩

/-- C2 counterexample: on a base component with observed attributes color
and size, setMultipleState over both entries with propagation enabled
performs three render() invocations (one per re-entrant attribute reaction
plus the final direct one), not exactly one. -/
theorem setMultipleState_three_renders :
    (setMultipleState emptyEnv (initComp ["color", "size"] [])
      [("color", "red"), ("size", "large")] false).1.renders = 3 ∧
    ¬ (setMultipleState emptyEnv (initComp ["color", "size"] [])
      [("color", "red"), ("size", "large")] false).1.renders = 1 := by
  exact ⟨by decide, by decide⟩

/-! ## Frame lemmas for listener attachment operations -/

theorem attachOne_eq (dom : String → List Nat) (c : Comp) (e : String)
    (sel : Option String) (h : Nat) :
    ∃ ra na, attachOne dom c e sel h =
      { c with rootAttached := ra, nodeAttached := na } := by
  cases sel with
  | none => exact ⟨insertListener (e, h) c.rootAttached, c.nodeAttached, rfl⟩
  | some s => exact ⟨c.rootAttached, attachSelector dom s e h c.nodeAttached, rfl⟩

theorem detachOne_eq (dom : String → List Nat) (c : Comp) (e : String)
    (sel : Option String) (h : Nat) :
    ∃ ra na, detachOne dom c e sel h =
      { c with rootAttached := ra, nodeAttached := na } := by
  cases sel with
  | none => exact ⟨removeListener (e, h) c.rootAttached, c.nodeAttached, rfl⟩
  | some s => exact ⟨c.rootAttached, detachSelector dom s e h c.nodeAttached, rfl⟩

theorem attachList_eq (dom : String → List Nat) :
    ∀ (rs : List (String × Option String × Nat)) (c : Comp),
    ∃ ra na, attachList dom c rs =
      { c with rootAttached := ra, nodeAttached := na }
  | [], c => ⟨c.rootAttached, c.nodeAttached, rfl⟩
  | (e, sel, h) :: rest, c => by
    obtain ⟨ra1, na1, h1⟩ := attachOne_eq dom c e sel h
    obtain ⟨ra2, na2, h2⟩ := attachList_eq dom rest (attachOne dom c e sel h)
    refine ⟨ra2, na2, ?_⟩
    rw [attachList, h2, h1]

theorem detachList_eq (dom : String → List Nat) :
    ∀ (rs : List (String × Option String × Nat)) (c : Comp),
    ∃ ra na, detachList dom c rs =
      { c with rootAttached := ra, nodeAttached := na }
  | [], c => ⟨c.rootAttached, c.nodeAttached, rfl⟩
  | (e, sel, h) :: rest, c => by
    obtain ⟨ra1, na1, h1⟩ := detachOne_eq dom c e sel h
    obtain ⟨ra2, na2, h2⟩ := detachList_eq dom rest (detachOne dom c e sel h)
    refine ⟨ra2, na2, ?_⟩
    rw [detachList, h2, h1]

theorem connectedCallback_eq (dom : String → List Nat) (c : Comp) :
    ∃ ra na, connectedCallback dom c =
      { c with
        mounted := true
        rootAttached := ra
        nodeAttached := na
        execLog := c.execLog ++ c.queued
        queued := []
        renders := c.renders + 1 } := by
  obtain ⟨ra, na, h⟩ := attachList_eq dom
    (regList { c with mounted := true }) { c with mounted := true }
  refine ⟨ra, na, ?_⟩
  rw [connectedCallback, attachEventListeners, h]
  rfl

theorem disconnectedCallback_eq (dom : String → List Nat) (c : Comp) :
    ∃ ra na, disconnectedCallback dom c =
      { c with mounted := false, rootAttached := ra, nodeAttached := na } := by
  obtain ⟨ra, na, h⟩ := detachList_eq dom
    (regList { c with mounted := false }) { c with mounted := false }
  refine ⟨ra, na, ?_⟩
  rw [disconnectedCallback, removeEventListeners, h]

theorem onOp_eq (dom : String → List Nat) (c : Comp) (e : String)
    (sel : Option String) (h : Nat) :
    ∃ ls ra na, onOp dom c e sel h =
      { c with listeners := ls, rootAttached := ra, nodeAttached := na } := by
  rw [onOp]
  by_cases hm : c.mounted = true
  · rw [if_pos hm]
    obtain ⟨ra, na, h1⟩ := attachOne_eq dom { c with listeners := assocSet e (((assocGet e c.listeners).getD []) ++ [(sel, h)]) c.listeners } e sel h
    exact ⟨_, ra, na, by rw [h1]⟩
  · rw [if_neg hm]
    exact ⟨_, c.rootAttached, c.nodeAttached, rfl⟩

theorem offOp_eq (dom : String → List Nat) (c : Comp) (e : String)
    (sel : Option String) (h : Nat) :
    ∃ ls ra na, offOp dom c e sel h =
      { c with listeners := ls, rootAttached := ra, nodeAttached := na } := by
  cases hg : assocGet e c.listeners with
  | none =>
    refine ⟨c.listeners, c.rootAttached, c.nodeAttached, ?_⟩
    simp only [offOp, hg]
  | some subs =>
    cases hf : subs.findIdx? (fun r => r = (sel, h)) with
    | none =>
      refine ⟨c.listeners, c.rootAttached, c.nodeAttached, ?_⟩
      simp only [offOp, hg, hf]
    | some i =>
      by_cases hm : c.mounted = true
      · obtain ⟨ra, na, h1⟩ := detachOne_eq dom { c with listeners := assocSet e (subs.eraseIdx i) c.listeners } e sel h
        refine ⟨assocSet e (subs.eraseIdx i) c.listeners, ra, na, ?_⟩
        simp only [offOp, hg, hf, if_pos hm]
        rw [h1]
      · refine ⟨assocSet e (subs.eraseIdx i) c.listeners, c.rootAttached,
          c.nodeAttached, ?_⟩
        simp only [offOp, hg, hf, if_neg hm]

/-! ## Command-queue drain semantics (C1) -/

theorem runOps_execLog (dom : String → List Nat) :
    ∀ (ops : List COp) (c : Comp),
    (runOps dom c ops).execLog = c.execLog ++ drainSem c.queued ops
  | [], c => by simp [runOps, drainSem]
  | COp.mount :: rest, c => by
    obtain ⟨ra, na, h⟩ := connectedCallback_eq dom c
    rw [runOps]
    show (runOps dom (connectedCallback dom c) rest).execLog = _
    rw [h, runOps_execLog dom rest]
    show (c.execLog ++ c.queued) ++ drainSem [] rest = _
    rw [drainSem, List.append_assoc]
  | COp.unmount :: rest, c => by
    obtain ⟨ra, na, h⟩ := disconnectedCallback_eq dom c
    rw [runOps]
    show (runOps dom (disconnectedCallback dom c) rest).execLog = _
    rw [h, runOps_execLog dom rest]
    rfl
  | COp.queue cmd :: rest, c => by
    rw [runOps]
    show (runOps dom (queueCommand c cmd) rest).execLog = _
    rw [runOps_execLog dom rest]
    rfl
  | COp.on e sel hn :: rest, c => by
    obtain ⟨ls, ra, na, h⟩ := onOp_eq dom c e sel hn
    rw [runOps]
    show (runOps dom (onOp dom c e sel hn) rest).execLog = _
    rw [h, runOps_execLog dom rest]
    rfl
  | COp.off e sel hn :: rest, c => by
    obtain ⟨ls, ra, na, h⟩ := offOp_eq dom c e sel hn
    rw [runOps]
    show (runOps dom (offOp dom c e sel hn) rest).execLog = _
    rw [h, runOps_execLog dom rest]
    rfl

/-- C1 amended: over any operation sequence on a freshly constructed
component, the executed-command log equals the drain semantics in which
each mount executes, in FIFO order, exactly the commands queued since the
previous mount.  Commands queued before the first mount therefore run
exactly once, in order, when the first mount reaction completes; a command
queued after a mount is not run then, but is drained by the next mount
reaction if the component is remounted (and never runs if no further mount
occurs). -/
theorem command_queue_drain (dom : String → List Nat) (observed : List String)
    (attrsInit : List (String × String)) (ops : List COp) :
    (runOps dom (initComp observed attrsInit) ops).execLog = drainSem [] ops := by
  rw [runOps_execLog dom ops (initComp observed attrsInit)]
  rfl

/-- C1 counterexample: a command queued after the first mount is executed
automatically by a later mount; here command 5 is queued while mounted,
the component is unmounted and remounted, and the second mount reaction
drains and executes it. -/
theorem command_after_mount_executed :
    (runOps (fun _ => []) (initComp [] [])
      [COp.mount, COp.queue 5, COp.unmount, COp.mount]).execLog = [5] ∧
    5 ∈ (runOps (fun _ => []) (initComp [] [])
      [COp.mount, COp.queue 5, COp.unmount, COp.mount]).execLog := by
  exact ⟨by decide, by decide⟩

/-! ## Listener attachment membership lemmas (C6) -/

theorem insertListener_mem (p q : String × Nat) (l : List (String × Nat)) :
    q ∈ insertListener p l ↔ q ∈ l ∨ q = p := by
  rw [insertListener]
  by_cases hp : p ∈ l
  · rw [if_pos hp]
    constructor
    · exact fun h => Or.inl h
    · rintro (h | rfl)
      · exact h
      · exact hp
  · rw [if_neg hp]
    simp

theorem removeListener_mem (p q : String × Nat) (l : List (String × Nat)) :
    q ∈ removeListener p l ↔ q ∈ l ∧ ¬ q = p := by
  rw [removeListener]
  simp [List.mem_filter]

theorem insertListener_idem (p : String × Nat) (l : List (String × Nat)) :
    insertListener p (insertListener p l) = insertListener p l := by
  show (if p ∈ insertListener p l then insertListener p l
    else insertListener p l ++ [p]) = insertListener p l
  rw [if_pos ((insertListener_mem p p l).mpr (Or.inr rfl))]

theorem removeListener_idem (p : String × Nat) (l : List (String × Nat)) :
    removeListener p (removeListener p l) = removeListener p l := by
  simp [removeListener, List.filter_filter]

theorem attachSelector_at (dom : String → List Nat) (s e : String) (h : Nat) :
    ∀ (ns : List Nat) (na : List (Nat × List (String × Nat))) (n : Nat),
    (assocGet n (ns.foldl (fun na2 n2 =>
        assocSet n2 (insertListener (e, h) ((assocGet n2 na2).getD [])) na2)
      na)).getD [] =
      if n ∈ ns then insertListener (e, h) ((assocGet n na).getD [])
      else (assocGet n na).getD []
  | [], na, n => by simp
  | n2 :: ns, na, n => by
    rw [List.foldl_cons]
    rw [attachSelector_at dom s e h ns _ n]
    by_cases hn : n = n2
    · subst hn
      rw [assocGet_set_self]
      by_cases hns : n ∈ ns
      · rw [if_pos hns, if_pos (List.mem_cons_self n ns)]
        simp [insertListener_idem]
      · rw [if_neg hns, if_pos (List.mem_cons_self n ns)]
        simp
    · rw [assocGet_set_ne _ (fun hh => hn hh.symm)]
      by_cases hns : n ∈ ns
      · rw [if_pos hns, if_pos (List.mem_cons_of_mem n2 hns)]
      · rw [if_neg hns, if_neg (by
          intro hmem
          rcases List.mem_cons.mp hmem with hh | hh
          · exact hn hh
          · exact hns hh)]

theorem detachSelector_at (dom : String → List Nat) (s e : String) (h : Nat) :
    ∀ (ns : List Nat) (na : List (Nat × List (String × Nat))) (n : Nat),
    (assocGet n (ns.foldl (fun na2 n2 =>
        assocSet n2 (removeListener (e, h) ((assocGet n2 na2).getD [])) na2)
      na)).getD [] =
      if n ∈ ns then removeListener (e, h) ((assocGet n na).getD [])
      else (assocGet n na).getD []
  | [], na, n => by simp
  | n2 :: ns, na, n => by
    rw [List.foldl_cons]
    rw [detachSelector_at dom s e h ns _ n]
    by_cases hn : n = n2
    · subst hn
      rw [assocGet_set_self]
      by_cases hns : n ∈ ns
      · rw [if_pos hns, if_pos (List.mem_cons_self n ns)]
        simp [removeListener_idem]
      · rw [if_neg hns, if_pos (List.mem_cons_self n ns)]
        simp
    · rw [assocGet_set_ne _ (fun hh => hn hh.symm)]
      by_cases hns : n ∈ ns
      · rw [if_pos hns, if_pos (List.mem_cons_of_mem n2 hns)]
      · rw [if_neg hns, if_neg (by
          intro hmem
          rcases List.mem_cons.mp hmem with hh | hh
          · exact hn hh
          · exact hns hh)]

theorem attachOne_root (dom : String → List Nat) (c : Comp) (e : String)
    (sel : Option String) (h : Nat) (q : String × Nat) :
    q ∈ (attachOne dom c e sel h).rootAttached ↔
      q ∈ c.rootAttached ∨ (sel = none ∧ q = (e, h)) := by
  cases sel with
  | none =>
    show q ∈ insertListener (e, h) c.rootAttached ↔ _
    rw [insertListener_mem]
    simp
  | some s =>
    show q ∈ c.rootAttached ↔ _
    simp

theorem attachOne_node (dom : String → List Nat) (c : Comp) (e : String)
    (sel : Option String) (h : Nat) (n : Nat) (q : String × Nat) :
    q ∈ attachedAt (attachOne dom c e sel h) n ↔
      q ∈ attachedAt c n ∨
        (∃ s, sel = some s ∧ n ∈ dom s ∧ q = (e, h)) := by
  cases sel with
  | none =>
    show q ∈ attachedAt c n ↔ _
    simp
  | some s =>
    show q ∈ (assocGet n (attachSelector dom s e h c.nodeAttached)).getD [] ↔ _
    rw [attachSelector, attachSelector_at dom s e h (dom s) c.nodeAttached n]
    by_cases hn : n ∈ dom s
    · rw [if_pos hn, insertListener_mem]
      constructor
      · rintro (hq | rfl)
        · exact Or.inl hq
        · exact Or.inr ⟨s, rfl, hn, rfl⟩
      · rintro (hq | ⟨s2, hs2, hn2, rfl⟩)
        · exact Or.inl hq
        · exact Or.inr rfl
    · rw [if_neg hn]
      constructor
      · exact fun hq => Or.inl hq
      · rintro (hq | ⟨s2, hs2, hn2, rfl⟩)
        · exact hq
        · cases hs2
          exact absurd hn2 hn

theorem detachOne_root (dom : String → List Nat) (c : Comp) (e : String)
    (sel : Option String) (h : Nat) (q : String × Nat) :
    q ∈ (detachOne dom c e sel h).rootAttached ↔
      q ∈ c.rootAttached ∧ ¬ (sel = none ∧ q = (e, h)) := by
  cases sel with
  | none =>
    show q ∈ removeListener (e, h) c.rootAttached ↔ _
    rw [removeListener_mem]
    simp
  | some s =>
    show q ∈ c.rootAttached ↔ _
    simp

theorem detachOne_node (dom : String → List Nat) (c : Comp) (e : String)
    (sel : Option String) (h : Nat) (n : Nat) (q : String × Nat) :
    q ∈ attachedAt (detachOne dom c e sel h) n ↔
      q ∈ attachedAt c n ∧
        ¬ (∃ s, sel = some s ∧ n ∈ dom s ∧ q = (e, h)) := by
  cases sel with
  | none =>
    show q ∈ attachedAt c n ↔ _
    simp
  | some s =>
    show q ∈ (assocGet n (detachSelector dom s e h c.nodeAttached)).getD [] ↔ _
    rw [detachSelector, detachSelector_at dom s e h (dom s) c.nodeAttached n]
    by_cases hn : n ∈ dom s
    · rw [if_pos hn, removeListener_mem]
      constructor
      · rintro ⟨hq, hne⟩
        refine ⟨hq, ?_⟩
        rintro ⟨s2, hs2, hn2, rfl⟩
        exact hne rfl
      · rintro ⟨hq, hne⟩
        refine ⟨hq, ?_⟩
        intro hq2
        exact hne ⟨s, rfl, hn, hq2⟩
    · rw [if_neg hn]
      constructor
      · intro hq
        refine ⟨hq, ?_⟩
        rintro ⟨s2, hs2, hn2, rfl⟩
        cases hs2
        exact absurd hn2 hn
      · exact fun hq => hq.1

theorem attachList_root (dom : String → List Nat) :
    ∀ (rs : List (String × Option String × Nat)) (c : Comp) (q : String × Nat),
    q ∈ (attachList dom c rs).rootAttached ↔
      q ∈ c.rootAttached ∨ (q.1, none, q.2) ∈ rs
  | [], c, q => by simp [attachList]
  | (e, sel, h) :: rest, c, q => by
    rw [attachList]
    rw [attachList_root dom rest _ q]
    rw [attachOne_root]
    constructor
    · rintro ((hq | ⟨rfl, rfl⟩) | hrest)
      · exact Or.inl hq
      · exact Or.inr (List.mem_cons_self _ _)
      · exact Or.inr (List.mem_cons_of_mem _ hrest)
    · rintro (hq | hmem)
      · exact Or.inl (Or.inl hq)
      · rcases List.mem_cons.mp hmem with heq | hmem2
        · rcases q with ⟨q1, q2⟩
          injection heq with h1 h23
          injection h23 with h2 h3
          subst h1
          subst h3
          exact Or.inl (Or.inr ⟨h2.symm, rfl⟩)
        · exact Or.inr hmem2

theorem attachList_node (dom : String → List Nat) :
    ∀ (rs : List (String × Option String × Nat)) (c : Comp) (n : Nat)
      (q : String × Nat),
    q ∈ attachedAt (attachList dom c rs) n ↔
      q ∈ attachedAt c n ∨ ∃ s, (q.1, some s, q.2) ∈ rs ∧ n ∈ dom s
  | [], c, n, q => by simp [attachList]
  | (e, sel, h) :: rest, c, n, q => by
    rw [attachList]
    rw [attachList_node dom rest _ n q]
    rw [attachOne_node]
    constructor
    · rintro ((hq | ⟨s, rfl, hn, rfl⟩) | ⟨s, hmem, hn⟩)
      · exact Or.inl hq
      · exact Or.inr ⟨s, List.mem_cons_self _ _, hn⟩
      · exact Or.inr ⟨s, List.mem_cons_of_mem _ hmem, hn⟩
    · rintro (hq | ⟨s, hmem, hn⟩)
      · exact Or.inl (Or.inl hq)
      · rcases List.mem_cons.mp hmem with heq | hmem2
        · rcases q with ⟨q1, q2⟩
          injection heq with h1 h23
          injection h23 with h2 h3
          subst h1
          subst h3
          exact Or.inl (Or.inr ⟨s, h2.symm, hn, rfl⟩)
        · exact Or.inr ⟨s, hmem2, hn⟩

theorem detachList_root (dom : String → List Nat) :
    ∀ (rs : List (String × Option String × Nat)) (c : Comp) (q : String × Nat),
    q ∈ (detachList dom c rs).rootAttached ↔
      q ∈ c.rootAttached ∧ ¬ (q.1, none, q.2) ∈ rs
  | [], c, q => by simp [detachList]
  | (e, sel, h) :: rest, c, q => by
    rw [detachList]
    rw [detachList_root dom rest _ q]
    rw [detachOne_root]
    constructor
    · rintro ⟨⟨hq, hne⟩, hnot⟩
      refine ⟨hq, ?_⟩
      intro hmem
      rcases List.mem_cons.mp hmem with heq | hmem2
      · rcases q with ⟨q1, q2⟩
        injection heq with h1 h23
        injection h23 with h2 h3
        exact hne ⟨h2.symm, Prod.ext h1 h3⟩
      · exact hnot hmem2
    · rintro ⟨hq, hnot⟩
      refine ⟨⟨hq, ?_⟩, ?_⟩
      · rintro ⟨rfl, rfl⟩
        exact hnot (List.mem_cons_self _ _)
      · intro hmem2
        exact hnot (List.mem_cons_of_mem _ hmem2)

theorem detachList_node (dom : String → List Nat) :
    ∀ (rs : List (String × Option String × Nat)) (c : Comp) (n : Nat)
      (q : String × Nat),
    q ∈ attachedAt (detachList dom c rs) n ↔
      q ∈ attachedAt c n ∧ ¬ ∃ s, (q.1, some s, q.2) ∈ rs ∧ n ∈ dom s
  | [], c, n, q => by simp [detachList]
  | (e, sel, h) :: rest, c, n, q => by
    rw [detachList]
    rw [detachList_node dom rest _ n q]
    rw [detachOne_node]
    constructor
    · rintro ⟨⟨hq, hne⟩, hnot⟩
      refine ⟨hq, ?_⟩
      rintro ⟨s, hmem, hn⟩
      rcases List.mem_cons.mp hmem with heq | hmem2
      · rcases q with ⟨q1, q2⟩
        injection heq with h1 h23
        injection h23 with h2 h3
        exact hne ⟨s, h2.symm, hn, Prod.ext h1 h3⟩
      · exact hnot ⟨s, hmem2, hn⟩
    · rintro ⟨hq, hnot⟩
      refine ⟨⟨hq, ?_⟩, ?_⟩
      · rintro ⟨s, rfl, hn, rfl⟩
        exact hnot ⟨s, List.mem_cons_self _ _, hn⟩
      · rintro ⟨s, hmem2, hn⟩
        exact hnot ⟨s, List.mem_cons_of_mem _ hmem2, hn⟩

theorem mem_flatMapReg (e : String) (sel : Option String) (h : Nat) :
    ∀ (ls : List (String × List (Option String × Nat))),
    (ls.map Prod.fst).Nodup →
    ((e, sel, h) ∈ ls.flatMap (fun p => p.2.map (fun r => (p.1, r.1, r.2))) ↔
      ∃ subs, assocGet e ls = some subs ∧ (sel, h) ∈ subs)
  | [], _ => by simp [assocGet]
  | (e2, subs2) :: rest, hnd => by
    have hnd1 : ¬ e2 ∈ rest.map Prod.fst ∧ (rest.map Prod.fst).Nodup := by
      rw [List.map_cons] at hnd
      exact List.nodup_cons.mp hnd
    rw [List.flatMap_cons, List.mem_append]
    by_cases he : e2 = e
    · subst he
      rw [assocGet]
      simp only [if_pos rfl]
      constructor
      · rintro (hmem | hmem)
        · rcases List.mem_map.mp hmem with ⟨r, hr, heq⟩
          refine ⟨subs2, rfl, ?_⟩
          injection heq with h1 h23
          injection h23 with h2 h3
          exact (Prod.ext h2 h3 : r = (sel, h)) ▸ hr
        · exfalso
          rcases List.mem_flatMap.mp hmem with ⟨p, hp, hmem2⟩
          rcases List.mem_map.mp hmem2 with ⟨r, hr, heq⟩
          injection heq with h1 h23
          exact hnd1.1 (List.mem_map.mpr ⟨p, hp, h1⟩)
      · rintro ⟨subs, hsubs, hmem⟩
        injection hsubs with hsubs
        subst hsubs
        exact Or.inl (List.mem_map.mpr ⟨(sel, h), hmem, rfl⟩)
    · rw [assocGet]
      simp only [if_neg he]
      rw [← mem_flatMapReg e sel h rest hnd1.2]
      constructor
      · rintro (hmem | hmem)
        · exfalso
          rcases List.mem_map.mp hmem with ⟨r, hr, heq⟩
          injection heq with h1 h23
          exact he h1
        · exact hmem
      · exact fun hmem => Or.inr hmem

theorem mem_regList (c : Comp) (e : String) (sel : Option String) (h : Nat)
    (hnd : (c.listeners.map Prod.fst).Nodup) :
    (e, sel, h) ∈ regList c ↔
      ∃ subs, assocGet e c.listeners = some subs ∧ (sel, h) ∈ subs :=
  mem_flatMapReg e sel h c.listeners hnd

theorem mem_regPairs (c : Comp) (e : String) (h : Nat) :
    (e, h) ∈ regPairs c ↔ ∃ sel, (e, sel, h) ∈ regList c := by
  rw [regPairs, List.mem_map]
  constructor
  · rintro ⟨⟨e2, sel2, h2⟩, hmem, heq⟩
    injection heq with h1 h2eq
    subst h1
    subst h2eq
    exact ⟨sel2, hmem⟩
  · rintro ⟨sel, hmem⟩
    exact ⟨(e, sel, h), hmem, rfl⟩

theorem assocSet_keys {α : Type} (k : String) (v : α) :
    ∀ (l : List (String × α)),
    (assocSet k v l).map Prod.fst =
      if k ∈ l.map Prod.fst then l.map Prod.fst else l.map Prod.fst ++ [k]
  | [] => by simp [assocSet]
  | (k2, v2) :: rest => by
    rw [assocSet]
    by_cases h2 : k2 = k
    · subst h2
      rw [if_pos rfl]
      simp
    · rw [if_neg h2, List.map_cons, List.map_cons, assocSet_keys k v rest]
      by_cases hk : k ∈ rest.map Prod.fst
      · rw [if_pos hk, if_pos (List.mem_cons_of_mem _ hk)]
      · rw [if_neg hk, if_neg (by
          intro hmem
          rcases List.mem_cons.mp hmem with hh | hh
          · exact h2 hh.symm
          · exact hk hh)]
        simp

theorem findIdx_erase_decomp (sel : Option String) (h : Nat) :
    ∀ (subs : List (Option String × Nat)) (i : Nat),
    subs.findIdx? (fun r => r = (sel, h)) = some i →
    ∃ l1 l2, subs = l1 ++ (sel, h) :: l2 ∧ subs.eraseIdx i = l1 ++ l2
  | [], i, hf => by simp [List.findIdx?] at hf
  | r :: rest, i, hf => by
    rw [List.findIdx?_cons] at hf
    by_cases hr : r = (sel, h)
    · rw [if_pos (by simpa using hr)] at hf
      injection hf with hf
      subst hf
      subst hr
      exact ⟨[], rest, rfl, rfl⟩
    · rw [if_neg (by simpa using hr)] at hf
      rw [List.findIdx?_succ] at hf
      rcases Option.map_eq_some'.mp hf with ⟨j, hj, hji⟩
      obtain ⟨l1, l2, hsplit, herase⟩ := findIdx_erase_decomp sel h rest j hj
      refine ⟨r :: l1, l2, by rw [hsplit]; rfl, ?_⟩
      rw [← hji]
      show (r :: rest).eraseIdx (j + 1) = r :: (l1 ++ l2)
      rw [List.eraseIdx_cons_succ, herase]

/-! ## Invariant preservation (C6) -/

theorem inv_queue (dom : String → List Nat) (c : Comp) (cmd : Nat)
    (hInv : listenerInv dom c) : listenerInv dom (queueCommand c cmd) :=
  hInv

theorem inv_mount (dom : String → List Nat) (c : Comp)
    (hInv : listenerInv dom c) : listenerInv dom (connectedCallback dom c) := by
  rcases hInv with ⟨hk, hsub, hmt, hunmt⟩
  obtain ⟨ra, na, heq⟩ := attachList_eq dom
    (regList { c with mounted := true }) { c with mounted := true }
  have hcc : connectedCallback dom c =
      { c with
        mounted := true
        rootAttached := ra
        nodeAttached := na
        execLog := c.execLog ++ c.queued
        queued := []
        renders := c.renders + 1 } := by
    rw [connectedCallback, attachEventListeners, heq]
    rfl
  have hra : ∀ q : String × Nat, q ∈ ra ↔
      q ∈ c.rootAttached ∨ (q.1, none, q.2) ∈ regList c := by
    intro q
    have h1 : (attachList dom { c with mounted := true }
        (regList { c with mounted := true })).rootAttached = ra := by
      rw [heq]
    rw [← h1]
    exact attachList_root dom (regList { c with mounted := true })
      { c with mounted := true } q
  have hna : ∀ (n : Nat) (q : String × Nat),
      q ∈ (assocGet n na).getD [] ↔
      q ∈ attachedAt c n ∨ ∃ s, (q.1, some s, q.2) ∈ regList c ∧ n ∈ dom s := by
    intro n q
    have h1 : attachedAt (attachList dom { c with mounted := true }
        (regList { c with mounted := true })) n = (assocGet n na).getD [] := by
      rw [heq]
      rfl
    rw [← h1]
    exact attachList_node dom (regList { c with mounted := true })
      { c with mounted := true } n q
  have hpre_root : ∀ e h, (e, h) ∈ c.rootAttached → ownedRoot c e h := by
    intro e h hmem
    cases hcm : c.mounted with
    | true => exact ((hmt hcm).1 e h).mp hmem
    | false =>
      rw [(hunmt hcm).1] at hmem
      exact absurd hmem (List.not_mem_nil _)
  have hpre_node : ∀ n e h, (e, h) ∈ attachedAt c n → ownedNode dom c n e h := by
    intro n e h hmem
    cases hcm : c.mounted with
    | true => exact ((hmt hcm).2 n e h).mp hmem
    | false =>
      rw [(hunmt hcm).2 n] at hmem
      exact absurd hmem (List.not_mem_nil _)
  rw [hcc]
  refine ⟨hk, hsub, ?_, ?_⟩
  · intro _
    constructor
    · intro e h
      show (e, h) ∈ ra ↔ ownedRoot c e h
      rw [hra (e, h)]
      constructor
      · rintro (hmem | hmem)
        · exact hpre_root e h hmem
        · exact (mem_regList c e none h hk).mp hmem
      · intro hmem
        exact Or.inr ((mem_regList c e none h hk).mpr hmem)
    · intro n e h
      show (e, h) ∈ (assocGet n na).getD [] ↔ ownedNode dom c n e h
      rw [hna n (e, h)]
      constructor
      · rintro (hmem | ⟨s, hmem, hn⟩)
        · exact hpre_node n e h hmem
        · rcases (mem_regList c e (some s) h hk).mp hmem with ⟨subs, hget, hsub2⟩
          exact ⟨s, subs, hget, hsub2, hn⟩
      · rintro ⟨s, subs, hget, hsub2, hn⟩
        exact Or.inr ⟨s, (mem_regList c e (some s) h hk).mpr ⟨subs, hget, hsub2⟩, hn⟩
  · intro hmf
    exact absurd hmf (by simp)

theorem inv_unmount (dom : String → List Nat) (c : Comp)
    (hInv : listenerInv dom c) :
    listenerInv dom (disconnectedCallback dom c) := by
  rcases hInv with ⟨hk, hsub, hmt, hunmt⟩
  obtain ⟨ra, na, heq⟩ := detachList_eq dom
    (regList { c with mounted := false }) { c with mounted := false }
  have hcc : disconnectedCallback dom c =
      { c with mounted := false, rootAttached := ra, nodeAttached := na } := by
    rw [disconnectedCallback, removeEventListeners, heq]
  have hra : ∀ q : String × Nat, q ∈ ra ↔
      q ∈ c.rootAttached ∧ ¬ (q.1, none, q.2) ∈ regList c := by
    intro q
    have h1 : (detachList dom { c with mounted := false }
        (regList { c with mounted := false })).rootAttached = ra := by
      rw [heq]
    rw [← h1]
    exact detachList_root dom (regList { c with mounted := false })
      { c with mounted := false } q
  have hna : ∀ (n : Nat) (q : String × Nat),
      q ∈ (assocGet n na).getD [] ↔
      q ∈ attachedAt c n ∧ ¬ ∃ s, (q.1, some s, q.2) ∈ regList c ∧ n ∈ dom s := by
    intro n q
    have h1 : attachedAt (detachList dom { c with mounted := false }
        (regList { c with mounted := false })) n = (assocGet n na).getD [] := by
      rw [heq]
      rfl
    rw [← h1]
    exact detachList_node dom (regList { c with mounted := false })
      { c with mounted := false } n q
  rw [hcc]
  refine ⟨hk, hsub, ?_, ?_⟩
  · intro hmt2
    exact absurd hmt2 (by simp)
  · intro _
    constructor
    · rw [List.eq_nil_iff_forall_not_mem]
      rintro ⟨e, h⟩ hmem
      rw [hra (e, h)] at hmem
      rcases hmem with ⟨hpre, hnreg⟩
      cases hcm : c.mounted with
      | true =>
        have howned := ((hmt hcm).1 e h).mp hpre
        exact hnreg ((mem_regList c e none h hk).mpr howned)
      | false =>
        rw [(hunmt hcm).1] at hpre
        exact absurd hpre (List.not_mem_nil _)
    · intro n
      show (assocGet n na).getD [] = []
      rw [List.eq_nil_iff_forall_not_mem]
      rintro ⟨e, h⟩ hmem
      rw [hna n (e, h)] at hmem
      rcases hmem with ⟨hpre, hnreg⟩
      cases hcm : c.mounted with
      | true =>
        have howned := ((hmt hcm).2 n e h).mp hpre
        rcases howned with ⟨s, subs, hget, hsub2, hn⟩
        exact hnreg ⟨s, (mem_regList c e (some s) h hk).mpr ⟨subs, hget, hsub2⟩, hn⟩
      | false =>
        rw [(hunmt hcm).2 n] at hpre
        exact absurd hpre (List.not_mem_nil _)

theorem inv_on (dom : String → List Nat) (c : Comp) (e : String)
    (sel : Option String) (h : Nat) (hInv : listenerInv dom c)
    (hfresh : ¬ (e, h) ∈ regPairs c) : listenerInv dom (onOp dom c e sel h) := by
  rcases hInv with ⟨hk, hsub, hmt, hunmt⟩
  have hfr2 : ∀ (sel2 : Option String) (subs : List (Option String × Nat)),
      assocGet e c.listeners = some subs → ¬ (sel2, h) ∈ subs := by
    intro sel2 subs hget hmem
    exact hfresh ((mem_regPairs c e h).mpr
      ⟨sel2, (mem_regList c e sel2 h hk).mpr ⟨subs, hget, hmem⟩⟩)
  rw [onOp]
  set subs0 := (assocGet e c.listeners).getD [] with hsubs0
  set L := assocSet e (subs0 ++ [(sel, h)]) c.listeners with hL
  have hget_self : assocGet e L = some (subs0 ++ [(sel, h)]) :=
    assocGet_set_self e _ c.listeners
  have hget_ne : ∀ e2, ¬ e2 = e → assocGet e2 L = assocGet e2 c.listeners := by
    intro e2 hne
    exact assocGet_set_ne _ (fun hh => hne hh.symm) c.listeners
  have hk2 : (L.map Prod.fst).Nodup := by
    rw [hL, assocSet_keys]
    by_cases hke : e ∈ c.listeners.map Prod.fst
    · rw [if_pos hke]
      exact hk
    · rw [if_neg hke]
      simp [List.nodup_append, hk, hke]
  have hsub2 : ∀ e2 subs2, assocGet e2 L = some subs2 →
      (subs2.map Prod.snd).Nodup := by
    intro e2 subs2 hget2
    by_cases he2 : e2 = e
    · subst he2
      have h3 := hget_self.symm.trans hget2
      injection h3 with h3
      rw [← h3]
      rcases hget : assocGet e2 c.listeners with _ | subs
      · rw [hsubs0, hget]
        simp
      · rw [hsubs0, hget]
        simp only [Option.getD_some, List.map_append]
        rw [List.nodup_append]
        refine ⟨hsub e2 subs hget, by simp, ?_⟩
        intro x hx hx2
        rcases List.mem_map.mp hx with ⟨r, hr, hxr⟩
        subst hxr
        simp only [List.map_cons, List.map_nil, List.mem_singleton] at hx2
        exact hfr2 r.1 subs hget ((Prod.ext rfl hx2 : r = (r.1, h)) ▸ hr)
    · rw [hget_ne e2 he2] at hget2
      exact hsub e2 subs2 hget2
  have hownR : ∀ e2 h2, ownedRoot { c with listeners := L } e2 h2 ↔
      ownedRoot c e2 h2 ∨ (sel = none ∧ e2 = e ∧ h2 = h) := by
    intro e2 h2
    by_cases he2 : e2 = e
    · subst he2
      constructor
      · rintro ⟨subs2, hget2, hmem⟩
        have h3 := hget_self.symm.trans hget2
        injection h3 with h3
        rw [← h3] at hmem
        rcases List.mem_append.mp hmem with hmem2 | hmem2
        · rcases hget : assocGet e2 c.listeners with _ | subs
          · rw [hsubs0, hget] at hmem2
            simp at hmem2
          · rw [hsubs0, hget] at hmem2
            exact Or.inl ⟨subs, hget, by simpa using hmem2⟩
        · rcases List.mem_singleton.mp hmem2 with heq2
          injection heq2 with hs hh
          exact Or.inr ⟨hs.symm, rfl, hh⟩
      · rintro (⟨subs, hget, hmem⟩ | ⟨hs, _, hh⟩)
        · refine ⟨subs0 ++ [(sel, h)], hget_self, ?_⟩
          rw [hsubs0, hget]
          exact List.mem_append_left _ (by simpa using hmem)
        · subst hs
          subst hh
          exact ⟨subs0 ++ [(none, h2)], hget_self,
            List.mem_append_right _ (List.mem_singleton.mpr rfl)⟩
    · constructor
      · rintro ⟨subs2, hget2, hmem⟩
        rw [hget_ne e2 he2] at hget2
        exact Or.inl ⟨subs2, hget2, hmem⟩
      · rintro (⟨subs, hget, hmem⟩ | ⟨hs, he, hh⟩)
        · refine ⟨subs, ?_, hmem⟩
          rw [hget_ne e2 he2]
          exact hget
        · exact absurd he he2
  have hownN : ∀ n e2 h2, ownedNode dom { c with listeners := L } n e2 h2 ↔
      ownedNode dom c n e2 h2 ∨
        (∃ s, sel = some s ∧ e2 = e ∧ h2 = h ∧ n ∈ dom s) := by
    intro n e2 h2
    by_cases he2 : e2 = e
    · subst he2
      constructor
      · rintro ⟨s, subs2, hget2, hmem, hn⟩
        have h3 := hget_self.symm.trans hget2
        injection h3 with h3
        rw [← h3] at hmem
        rcases List.mem_append.mp hmem with hmem2 | hmem2
        · rcases hget : assocGet e2 c.listeners with _ | subs
          · rw [hsubs0, hget] at hmem2
            simp at hmem2
          · rw [hsubs0, hget] at hmem2
            exact Or.inl ⟨s, subs, hget, by simpa using hmem2, hn⟩
        · rcases List.mem_singleton.mp hmem2 with heq2
          injection heq2 with hs hh
          exact Or.inr ⟨s, hs.symm, rfl, hh, hn⟩
      · rintro (⟨s, subs, hget, hmem, hn⟩ | ⟨s, hs, _, hh, hn⟩)
        · refine ⟨s, subs0 ++ [(sel, h)], hget_self, ?_, hn⟩
          rw [hsubs0, hget]
          exact List.mem_append_left _ (by simpa using hmem)
        · subst hs
          subst hh
          exact ⟨s, subs0 ++ [(some s, h2)], hget_self,
            List.mem_append_right _ (List.mem_singleton.mpr rfl), hn⟩
    · constructor
      · rintro ⟨s, subs2, hget2, hmem, hn⟩
        rw [hget_ne e2 he2] at hget2
        exact Or.inl ⟨s, subs2, hget2, hmem, hn⟩
      · rintro (⟨s, subs, hget, hmem, hn⟩ | ⟨s, hs, he, hh, hn⟩)
        · refine ⟨s, subs, ?_, hmem, hn⟩
          rw [hget_ne e2 he2]
          exact hget
        · exact absurd he he2
  by_cases hm : c.mounted = true
  · rw [if_pos hm]
    obtain ⟨ra2, na2, heq2⟩ := attachOne_eq dom { c with listeners := L } e sel h
    have hra2 : ∀ q : String × Nat, q ∈ ra2 ↔
        q ∈ c.rootAttached ∨ (sel = none ∧ q = (e, h)) := by
      intro q
      have h1 : (attachOne dom { c with listeners := L } e sel h).rootAttached =
          ra2 := by
        rw [heq2]
      rw [← h1]
      exact attachOne_root dom { c with listeners := L } e sel h q
    have hna2 : ∀ (n : Nat) (q : String × Nat), q ∈ (assocGet n na2).getD [] ↔
        q ∈ attachedAt c n ∨ (∃ s, sel = some s ∧ n ∈ dom s ∧ q = (e, h)) := by
      intro n q
      have h1 : attachedAt (attachOne dom { c with listeners := L } e sel h) n =
          (assocGet n na2).getD [] := by
        rw [heq2]
        rfl
      rw [← h1]
      exact attachOne_node dom { c with listeners := L } e sel h n q
    rw [heq2]
    refine ⟨hk2, hsub2, ?_, ?_⟩
    · intro _
      constructor
      · intro e2 h2
        show (e2, h2) ∈ ra2 ↔ ownedRoot { c with listeners := L } e2 h2
        rw [hra2 (e2, h2), (hmt hm).1 e2 h2, hownR e2 h2]
        constructor
        · rintro (hp | ⟨hs, heq3⟩)
          · exact Or.inl hp
          · injection heq3 with he hh
            exact Or.inr ⟨hs, he, hh⟩
        · rintro (hp | ⟨hs, he, hh⟩)
          · exact Or.inl hp
          · subst he
            subst hh
            exact Or.inr ⟨hs, rfl⟩
      · intro n e2 h2
        show (e2, h2) ∈ (assocGet n na2).getD [] ↔
          ownedNode dom { c with listeners := L } n e2 h2
        rw [hna2 n (e2, h2), (hmt hm).2 n e2 h2, hownN n e2 h2]
        constructor
        · rintro (hp | ⟨s, hs, hn, heq3⟩)
          · exact Or.inl hp
          · injection heq3 with he hh
            exact Or.inr ⟨s, hs, he, hh, hn⟩
        · rintro (hp | ⟨s, hs, he, hh, hn⟩)
          · exact Or.inl hp
          · subst he
            subst hh
            exact Or.inr ⟨s, hs, hn, rfl⟩
    · intro hmf
      have h2 : c.mounted = false := hmf
      rw [hm] at h2
      exact absurd h2 (by decide)
  · rw [if_neg hm]
    have hmf : c.mounted = false := by
      cases hcm : c.mounted
      · rfl
      · exact absurd hcm hm
    refine ⟨hk2, hsub2, ?_, ?_⟩
    · intro hmt2
      exact absurd (show c.mounted = true from hmt2) hm
    · intro _
      exact ⟨(hunmt hmf).1, fun n => (hunmt hmf).2 n⟩

theorem assocGet_mem_keys {α : Type} (k : String) (v : α) :
    ∀ (l : List (String × α)), assocGet k l = some v → k ∈ l.map Prod.fst
  | [], hget => by simp [assocGet] at hget
  | (k2, v2) :: rest, hget => by
    rw [assocGet] at hget
    by_cases h2 : k2 = k
    · rw [List.map_cons, h2]
      exact List.mem_cons_self k _
    · rw [if_neg h2] at hget
      exact List.mem_cons_of_mem _ (assocGet_mem_keys k v rest hget)

theorem inv_off (dom : String → List Nat) (c : Comp) (e : String)
    (sel : Option String) (h : Nat) (hInv : listenerInv dom c) :
    listenerInv dom (offOp dom c e sel h) := by
  rcases hInv with ⟨hk, hsub, hmt, hunmt⟩
  rcases hg : assocGet e c.listeners with _ | subs
  · have hoff : offOp dom c e sel h = c := by
      simp only [offOp, hg]
    rw [hoff]
    exact ⟨hk, hsub, hmt, hunmt⟩
  · rcases hf : subs.findIdx? (fun r => r = (sel, h)) with _ | i
    · have hoff : offOp dom c e sel h = c := by
        simp only [offOp, hg, hf]
      rw [hoff]
      exact ⟨hk, hsub, hmt, hunmt⟩
    · obtain ⟨l1, l2, hsplit, herase⟩ := findIdx_erase_decomp sel h subs i hf
      have hnodupS : (subs.map Prod.snd).Nodup := hsub e subs hg
      have hnodupSplit : ((l1.map Prod.snd) ++ h :: (l2.map Prod.snd)).Nodup := by
        rw [hsplit] at hnodupS
        simpa using hnodupS
      have hhl1 : ¬ h ∈ l1.map Prod.snd := by
        intro hmem
        have := (List.nodup_append.mp hnodupSplit).2.2
        exact this hmem (List.mem_cons_self h _)
      have hhl2 : ¬ h ∈ l2.map Prod.snd := by
        have := (List.nodup_append.mp hnodupSplit).2.1
        exact (List.nodup_cons.mp this).1
      have hmemErase : ∀ (sel2 : Option String) (h2 : Nat),
          (sel2, h2) ∈ l1 ++ l2 ↔ ((sel2, h2) ∈ subs ∧ ¬ h2 = h) := by
        intro sel2 h2
        constructor
        · intro hmem
          rcases List.mem_append.mp hmem with hmem2 | hmem2
          · have hmemS : (sel2, h2) ∈ subs := by
              rw [hsplit]
              exact List.mem_append_left _ hmem2
            refine ⟨hmemS, ?_⟩
            intro hh2
            subst hh2
            exact hhl1 (List.mem_map.mpr ⟨(sel2, h2), hmem2, rfl⟩)
          · have hmemS : (sel2, h2) ∈ subs := by
              rw [hsplit]
              exact List.mem_append_right _ (List.mem_cons_of_mem _ hmem2)
            refine ⟨hmemS, ?_⟩
            intro hh2
            subst hh2
            exact hhl2 (List.mem_map.mpr ⟨(sel2, h2), hmem2, rfl⟩)
        · rintro ⟨hmem, hne⟩
          rw [hsplit] at hmem
          rcases List.mem_append.mp hmem with hmem2 | hmem2
          · exact List.mem_append_left _ hmem2
          · rcases List.mem_cons.mp hmem2 with heq2 | hmem3
            · injection heq2 with hs hh
              exact absurd hh hne
            · exact List.mem_append_right _ hmem3
      have huniq : ∀ (sel2 : Option String), (sel2, h) ∈ subs → sel2 = sel := by
        intro sel2 hmem
        rw [hsplit] at hmem
        rcases List.mem_append.mp hmem with hmem2 | hmem2
        · exact absurd (List.mem_map.mpr ⟨(sel2, h), hmem2, rfl⟩) hhl1
        · rcases List.mem_cons.mp hmem2 with heq2 | hmem3
          · exact (Prod.ext_iff.mp heq2).1
          · exact absurd (List.mem_map.mpr ⟨(sel2, h), hmem3, rfl⟩) hhl2
      have hoff : offOp dom c e sel h =
          (if c.mounted = true then
            detachOne dom { c with listeners := assocSet e (subs.eraseIdx i) c.listeners } e sel h
          else { c with listeners := assocSet e (subs.eraseIdx i) c.listeners }) := by
        simp only [offOp, hg, hf]
      rw [hoff]
      set L := assocSet e (subs.eraseIdx i) c.listeners with hL
      have hget_self : assocGet e L = some (subs.eraseIdx i) :=
        assocGet_set_self e _ c.listeners
      have hget_ne : ∀ e2, ¬ e2 = e →
          assocGet e2 L = assocGet e2 c.listeners := by
        intro e2 hne
        exact assocGet_set_ne _ (fun hh => hne hh.symm) c.listeners
      have hk2 : (L.map Prod.fst).Nodup := by
        rw [hL, assocSet_keys,
          if_pos (assocGet_mem_keys e subs c.listeners hg)]
        exact hk
      have hsub2 : ∀ e2 subs2, assocGet e2 L = some subs2 →
          (subs2.map Prod.snd).Nodup := by
        intro e2 subs2 hget2
        by_cases he2 : e2 = e
        · subst he2
          have h3 := hget_self.symm.trans hget2
          injection h3 with h3
          rw [← h3, herase, List.map_append]
          have hparts := List.nodup_append.mp hnodupSplit
          rw [List.nodup_append]
          refine ⟨hparts.1, (List.nodup_cons.mp hparts.2.1).2, ?_⟩
          intro a ha ha2
          exact hparts.2.2 ha (List.mem_cons_of_mem h ha2)
        · rw [hget_ne e2 he2] at hget2
          exact hsub e2 subs2 hget2
      have hownR2 : ∀ e2 h2, ownedRoot { c with listeners := L } e2 h2 ↔
          (ownedRoot c e2 h2 ∧ ¬ (e2 = e ∧ h2 = h)) := by
        intro e2 h2
        by_cases he2 : e2 = e
        · subst he2
          constructor
          · rintro ⟨subs2, hget2, hmem⟩
            have h3 := hget_self.symm.trans hget2
            injection h3 with h3
            rw [← h3, herase] at hmem
            rcases (hmemErase none h2).mp hmem with ⟨hmem2, hne⟩
            exact ⟨⟨subs, hg, hmem2⟩, fun hc => hne hc.2⟩
          · rintro ⟨⟨subs2, hget2, hmem⟩, hne⟩
            rw [hg] at hget2
            injection hget2 with hget2
            subst hget2
            refine ⟨subs.eraseIdx i, hget_self, ?_⟩
            rw [herase]
            exact (hmemErase none h2).mpr ⟨hmem, fun hh => hne ⟨rfl, hh⟩⟩
        · constructor
          · rintro ⟨subs2, hget2, hmem⟩
            rw [hget_ne e2 he2] at hget2
            exact ⟨⟨subs2, hget2, hmem⟩, fun hc => he2 hc.1⟩
          · rintro ⟨⟨subs2, hget2, hmem⟩, hne⟩
            refine ⟨subs2, ?_, hmem⟩
            rw [hget_ne e2 he2]
            exact hget2
      have hownN2 : ∀ n e2 h2,
          ownedNode dom { c with listeners := L } n e2 h2 ↔
          (ownedNode dom c n e2 h2 ∧ ¬ (e2 = e ∧ h2 = h)) := by
        intro n e2 h2
        by_cases he2 : e2 = e
        · subst he2
          constructor
          · rintro ⟨s, subs2, hget2, hmem, hn⟩
            have h3 := hget_self.symm.trans hget2
            injection h3 with h3
            rw [← h3, herase] at hmem
            rcases (hmemErase (some s) h2).mp hmem with ⟨hmem2, hne⟩
            exact ⟨⟨s, subs, hg, hmem2, hn⟩, fun hc => hne hc.2⟩
          · rintro ⟨⟨s, subs2, hget2, hmem, hn⟩, hne⟩
            rw [hg] at hget2
            injection hget2 with hget2
            subst hget2
            refine ⟨s, subs.eraseIdx i, hget_self, ?_, hn⟩
            rw [herase]
            exact (hmemErase (some s) h2).mpr ⟨hmem, fun hh => hne ⟨rfl, hh⟩⟩
        · constructor
          · rintro ⟨s, subs2, hget2, hmem, hn⟩
            rw [hget_ne e2 he2] at hget2
            exact ⟨⟨s, subs2, hget2, hmem, hn⟩, fun hc => he2 hc.1⟩
          · rintro ⟨⟨s, subs2, hget2, hmem, hn⟩, hne⟩
            refine ⟨s, subs2, ?_, hmem, hn⟩
            rw [hget_ne e2 he2]
            exact hget2
      by_cases hm : c.mounted = true
      · rw [if_pos hm]
        obtain ⟨ra2, na2, heq2⟩ := detachOne_eq dom { c with listeners := L } e sel h
        have hra2 : ∀ q : String × Nat, q ∈ ra2 ↔
            q ∈ c.rootAttached ∧ ¬ (sel = none ∧ q = (e, h)) := by
          intro q
          have h1 : (detachOne dom { c with listeners := L } e sel h).rootAttached = ra2 := by
            rw [heq2]
          rw [← h1]
          exact detachOne_root dom { c with listeners := L } e sel h q
        have hna2 : ∀ (n : Nat) (q : String × Nat),
            q ∈ (assocGet n na2).getD [] ↔
            q ∈ attachedAt c n ∧ ¬ (∃ s, sel = some s ∧ n ∈ dom s ∧ q = (e, h)) := by
          intro n q
          have h1 : attachedAt (detachOne dom { c with listeners := L } e sel h) n =
              (assocGet n na2).getD [] := by
            rw [heq2]
            rfl
          rw [← h1]
          exact detachOne_node dom { c with listeners := L } e sel h n q
        rw [heq2]
        refine ⟨hk2, hsub2, ?_, ?_⟩
        · intro _
          constructor
          · intro e2 h2
            show (e2, h2) ∈ ra2 ↔ ownedRoot { c with listeners := L } e2 h2
            rw [hra2 (e2, h2), (hmt hm).1 e2 h2, hownR2 e2 h2]
            constructor
            · rintro ⟨hp, hne⟩
              refine ⟨hp, ?_⟩
              rintro ⟨rfl, rfl⟩
              rcases hp with ⟨subs2, hget2, hmem⟩
              rw [hg] at hget2
              injection hget2 with hget2
              subst hget2
              exact hne ⟨(huniq none hmem).symm, rfl⟩
            · rintro ⟨hp, hne⟩
              refine ⟨hp, ?_⟩
              rintro ⟨hs, heq3⟩
              injection heq3 with he hh
              exact hne ⟨he, hh⟩
          · intro n e2 h2
            show (e2, h2) ∈ (assocGet n na2).getD [] ↔
              ownedNode dom { c with listeners := L } n e2 h2
            rw [hna2 n (e2, h2), (hmt hm).2 n e2 h2, hownN2 n e2 h2]
            constructor
            · rintro ⟨hp, hne⟩
              refine ⟨hp, ?_⟩
              rintro ⟨rfl, rfl⟩
              rcases hp with ⟨s, subs2, hget2, hmem, hn⟩
              rw [hg] at hget2
              injection hget2 with hget2
              subst hget2
              exact hne ⟨s, (huniq (some s) hmem).symm, hn, rfl⟩
            · rintro ⟨hp, hne⟩
              refine ⟨hp, ?_⟩
              rintro ⟨s, hs, hn, heq3⟩
              injection heq3 with he hh
              exact hne ⟨he, hh⟩
        · intro hmf
          have h2 : c.mounted = false := hmf
          rw [hm] at h2
          exact absurd h2 (by decide)
      · rw [if_neg hm]
        have hmf : c.mounted = false := by
          cases hcm : c.mounted
          · rfl
          · exact absurd hcm hm
        refine ⟨hk2, hsub2, ?_, ?_⟩
        · intro hmt2
          exact absurd (show c.mounted = true from hmt2) hm
        · intro _
          exact ⟨(hunmt hmf).1, fun n => (hunmt hmf).2 n⟩

theorem inv_runOps (dom : String → List Nat) :
    ∀ (ops : List COp) (c : Comp),
    okTrace dom c ops = true → listenerInv dom c →
    listenerInv dom (runOps dom c ops)
  | [], _, _, hInv => hInv
  | COp.mount :: rest, c, hok, hInv =>
    inv_runOps dom rest _ hok (inv_mount dom c hInv)
  | COp.unmount :: rest, c, hok, hInv =>
    inv_runOps dom rest _ hok (inv_unmount dom c hInv)
  | COp.queue cmd :: rest, c, hok, hInv =>
    inv_runOps dom rest _ hok (inv_queue dom c cmd hInv)
  | COp.on e sel h :: rest, c, hok, hInv => by
    have hok0 : (decide (¬ (e, h) ∈ regPairs c) &&
        okTrace dom (stepOp dom c (COp.on e sel h)) rest) = true := hok
    rw [Bool.and_eq_true] at hok0
    exact inv_runOps dom rest _ hok0.2
      (inv_on dom c e sel h hInv (of_decide_eq_true hok0.1))
  | COp.off e sel h :: rest, c, hok, hInv =>
    inv_runOps dom rest _ hok (inv_off dom c e sel h hInv)

theorem inv_init (dom : String → List Nat) (observed : List String)
    (attrsInit : List (String × String)) :
    listenerInv dom (initComp observed attrsInit) := by
  refine ⟨by simp [initComp], ?_, ?_, ?_⟩
  · intro e subs hget
    simp [initComp, assocGet] at hget
  · intro hmt
    simp [initComp] at hmt
  · intro _
    exact ⟨rfl, fun n => rfl⟩

/-- C6 amended: over every operation sequence on a fresh component in
which no on-registration duplicates the (event, handler) pair of one
already registered, the listener invariant holds: when the component is
mounted, a handler is attached to the root or to a shadow descendant
exactly when a current registration targets it (selector-less
registrations own root attachments, selector registrations own the
attachments on their current matches), and when unmounted no attachment
exists at all; moreover the unmount reaction detaches listeners only,
leaving state, DOM attributes, the registry entries, the command queue,
the execution log, the render count and the error log unchanged.  Without
the no-duplicate proviso the claimed invariant is false, because
EventTarget.addEventListener de-duplicates attachments while the registry
keeps both registrations. -/
theorem listener_live_iff_mounted :
    (∀ (dom : String → List Nat) (observed : List String)
        (attrsInit : List (String × String)) (ops : List COp),
      okTrace dom (initComp observed attrsInit) ops = true →
      listenerInv dom (runOps dom (initComp observed attrsInit) ops)) ∧
    (∀ (dom : String → List Nat) (c : Comp),
      (disconnectedCallback dom c).stateMap = c.stateMap ∧
      (disconnectedCallback dom c).attrs = c.attrs ∧
      (disconnectedCallback dom c).listeners = c.listeners ∧
      (disconnectedCallback dom c).queued = c.queued ∧
      (disconnectedCallback dom c).execLog = c.execLog ∧
      (disconnectedCallback dom c).renders = c.renders ∧
      (disconnectedCallback dom c).errlog = c.errlog) := by
  constructor
  · intro dom observed attrsInit ops hok
    exact inv_runOps dom ops (initComp observed attrsInit) hok
      (inv_init dom observed attrsInit)
  · intro dom c
    obtain ⟨ra, na, heq⟩ := disconnectedCallback_eq dom c
    rw [heq]
    exact ⟨rfl, rfl, rfl, rfl, rfl, rfl, rfl⟩

/-- Witness for C6 amended on a concrete duplicate-free trace. -/
theorem listener_live_iff_mounted_witness :
    listenerInv (fun _ => []) (runOps (fun _ => []) (initComp [] [])
      [COp.mount, COp.on "click" none 7]) :=
  listener_live_iff_mounted.1 (fun _ => []) [] []
    [COp.mount, COp.on "click" none 7] (by decide)

/-- C6 counterexample: registering the same (event, handler) twice while
mounted and then removing it once leaves a registration in the registry of
a mounted component whose handler is attached nowhere, because
addEventListener de-duplicated the second attachment and
removeEventListener removed the single live attachment; "live iff
mounted" fails as stated. -/
theorem listener_live_iff_mounted_cex :
    (runOps (fun _ => []) (initComp [] [])
      [COp.mount, COp.on "click" none 7, COp.on "click" none 7,
        COp.off "click" none 7]).mounted = true ∧
    assocGet "click" (runOps (fun _ => []) (initComp [] [])
      [COp.mount, COp.on "click" none 7, COp.on "click" none 7,
        COp.off "click" none 7]).listeners = some [(none, 7)] ∧
    (runOps (fun _ => []) (initComp [] [])
      [COp.mount, COp.on "click" none 7, COp.on "click" none 7,
        COp.off "click" none 7]).rootAttached = [] := by
  exact ⟨by decide, by decide, by decide⟩
